import Mathlib

/-!
# snippetbox: cmd/web/main.go

A shallow embedding of `main` (package `main`, file `cmd/web/main.go`) together with the
parts of the Go standard library whose behaviour `main` inherits: the argument loop of
the `flag` package, the percent-escapes of `net/url` (`unescape`, `escape`,
`URL.EscapedPath`), `net/http`'s `ServeMux` with the method-and-wildcard patterns of
Go 1.22 (pattern parsing, the routing tree, path cleaning, the redirects and the 404/405
replies) and `http.StripPrefix`.

Go strings are sequences of bytes; they are modelled as lists of characters, a byte
being the character with that code (characters above 255 stand for no byte).

The definitions come first: the `flag` package, the configuration, `net/http`, the
routes of `main`, `main` itself. The lemmas follow, then one theorem per claim.
-/

set_option autoImplicit false

namespace Snippetbox

/-- A Go `string`. -/
abbrev Str := List Char

/-! ## The `flag` package, as far as `main` uses it -/

/-- The errors `FlagSet.parseOne` can report. -/
inductive FlagError where
  /-- `bad flag syntax: %s` -/
  | badSyntax
  /-- `flag.ErrHelp`: `-h` or `-help` was given and no such flag is defined. -/
  | errHelp
  /-- `flag provided but not defined: -%s` -/
  | notDefined
  /-- `flag needs an argument: -%s` -/
  | needsArgument
  deriving DecidableEq, Repr

/-- A `flag.FlagSet` holding string-valued flags only (the one kind `main` defines):
`formal` maps a flag name to the current contents of the variable it is bound to,
`args` are the arguments still to be read. -/
structure FlagSet where
  formal : List (Str × Str)
  args : List Str
  deriving DecidableEq, Repr

/-- Go `flag.StringVar(p, name, value, usage)`: defines the flag and stores the default
in the bound variable. -/
def FlagSet.StringVar (f : FlagSet) (name value : Str) : FlagSet :=
  { f with formal := (name, value) :: f.formal.filter (fun e => e.1 ≠ name) }

/-- Current contents of the variable bound to flag `name`. -/
def FlagSet.value (f : FlagSet) (name : Str) : Option Str :=
  (f.formal.find? (fun e => e.1 = name)).map Prod.snd

/-- Go `flag.Value.Set` for a string flag: overwrite the bound variable. -/
def FlagSet.set (f : FlagSet) (name value : Str) : FlagSet :=
  { f with formal := f.formal.map (fun e => if e.1 = name then (e.1, value) else e) }

/-- The loop `for i := 1; i < len(name); i++ { if name[i] == '=' ... }` of `parseOne`:
splits `name` at its first `=` beyond index 0, if there is one. -/
def cutEquals (name : Str) : Str × Option Str :=
  match name with
  | [] => ([], none)
  | c :: cs =>
    if '=' ∈ cs then
      (c :: cs.takeWhile (fun x => x ≠ '='), some ((cs.dropWhile (fun x => x ≠ '=')).drop 1))
    else (c :: cs, none)

/-- Go `(*FlagSet).parseOne`: reads one flag from the front of `f.args`. Returns the new
flag set, whether a flag was seen, and the error if any. -/
def FlagSet.parseOne (f : FlagSet) : FlagSet × Bool × Option FlagError :=
  match f.args with
  | [] => (f, false, none)
  | s :: rest =>
    if s.length < 2 ∨ s.head? ≠ some '-' then (f, false, none)
    else
      let numMinuses := if s.get? 1 = some '-' then 2 else 1
      if numMinuses = 2 ∧ s.length = 2 then
        -- "--" terminates the flags
        ({ f with args := rest }, false, none)
      else
        let name := s.drop numMinuses
        if name = [] ∨ name.head? = some '-' ∨ name.head? = some '=' then
          (f, false, some FlagError.badSyntax)
        else
          -- it is a flag; does it have an argument?
          let f := { f with args := rest }
          let (name, value) := cutEquals name
          match f.value name with
          | none =>
            if name = "help".toList ∨ name = "h".toList then (f, false, some FlagError.errHelp)
            else (f, false, some FlagError.notDefined)
          | some _ =>
            -- a string flag must have a value, which might be the next argument
            match value, f.args with
            | some v, _ => (f.set name v, true, none)
            | none, v :: rest' => ({ f with args := rest' }.set name v, true, none)
            | none, [] => (f, false, some FlagError.needsArgument)

/-- The `for` loop of Go `(*FlagSet).Parse`, bounded by `fuel` iterations. `none` means
the bound was reached; `FlagSet.Parse` passes a bound that is never reached. -/
def FlagSet.parseLoop : Nat → FlagSet → Option (FlagSet × Option FlagError)
  | 0, _ => none
  | fuel + 1, f =>
    match f.parseOne with
    | (f', true, _) => FlagSet.parseLoop fuel f'
    | (f', false, err) => some (f', err)

/-- Go `(*FlagSet).Parse(arguments)`: every iteration that continues the loop removes at
least one argument, so `arguments.length + 1` iterations are enough. -/
def FlagSet.Parse (f : FlagSet) (arguments : List Str) : Option (FlagSet × Option FlagError) :=
  FlagSet.parseLoop (arguments.length + 1) { f with args := arguments }

/-! ## `main`: configuration -/

/-- The local struct `config` of `main` (lines 16-19). -/
structure config where
  addr : Str
  staticDir : Str
  deriving DecidableEq, Repr

/-- The flag set after line 26, `flag.StringVar(&cfg.addr, "addr", ":4000", ...)`;
it is the only flag definition in `main`. -/
def CommandLine : FlagSet :=
  ({ formal := [], args := [] } : FlagSet).StringVar "addr".toList ":4000".toList

/-- How the process ends at `flag.Parse()` when parsing fails: `flag.CommandLine` uses
`ExitOnError`, which exits with status 0 for `ErrHelp` and status 2 otherwise. -/
def FlagError.exitStatus : FlagError → Nat
  | FlagError.errHelp => 0
  | _ => 2

/-- Lines 21-33 of `main`: `var cfg config`, the flag definition and `flag.Parse()`.
`cfg.addr` is the variable bound to `-addr`; `cfg.staticDir` is never assigned and keeps
the zero value of `string`. -/
def loadConfig (args : List Str) : Except FlagError config :=
  match CommandLine.Parse args with
  | some (f, none) => Except.ok { addr := (f.value "addr".toList).getD [], staticDir := [] }
  | some (_, some e) => Except.error e
  | none => Except.error FlagError.badSyntax -- not reached: `Parse` always returns

/-- Line 50: the directory handed to `http.Dir` for the file server. -/
def staticRoot : Str := "./ui/static/".toList

/-- The spec's reading of "the value given to `-addr`": the values the argument list
gives to the flag, in order. The flag is written `-addr v`, `--addr v`, `-addr=v` or
`--addr=v`, and the flags end at the first argument that is not of one of these forms. -/
def addrFlagValues : List Str → List Str
  | [] => []
  | s :: rest =>
    if s = "-addr".toList ∨ s = "--addr".toList then
      match rest with
      | [] => []
      | v :: rest' => v :: addrFlagValues rest'
    else if "-addr=".toList.isPrefixOf s then s.drop 6 :: addrFlagValues rest
    else if "--addr=".toList.isPrefixOf s then s.drop 7 :: addrFlagValues rest
    else []


/-- The flag set of `main` with `v` in the variable bound to `-addr`. -/
def addrSet (v : Str) (args : List Str) : FlagSet :=
  { formal := [("addr".toList, v)], args := args }

/-- The part of `parseOne` after the flag name has been cut out of the argument. -/
def flagStep (f : FlagSet) (name : Str) : FlagSet × Bool × Option FlagError :=
  match f.value (cutEquals name).1 with
  | none =>
    if (cutEquals name).1 = "help".toList ∨ (cutEquals name).1 = "h".toList then
      (f, false, some FlagError.errHelp)
    else (f, false, some FlagError.notDefined)
  | some _ =>
    match (cutEquals name).2, f.args with
    | some v, _ => (f.set (cutEquals name).1 v, true, none)
    | none, v :: rest' => ({ f with args := rest' }.set (cutEquals name).1 v, true, none)
    | none, [] => (f, false, some FlagError.needsArgument)


/-! ## `net/http`: handlers

The handler values `main` registers. `app.home`, `app.snippetView`, `app.snippetCreate`
and `app.snippetCreatePost` are methods of `*application` whose bodies are not part of
`main.go`; they appear as opaque routing targets. -/

/-- A Go `http.Handler` value occurring in `main`. -/
inductive Handler where
  /-- `http.FileServer(http.Dir(root))` -/
  | FileServer (root : Str)
  /-- The handler returned by `http.StripPrefix(pre, h)` for a non-empty `pre`. -/
  | stripped (pre : Str) (h : Handler)
  /-- `app.home` -/
  | home
  /-- `app.snippetView` -/
  | snippetView
  /-- `app.snippetCreate` -/
  | snippetCreate
  /-- `app.snippetCreatePost` -/
  | snippetCreatePost
  deriving DecidableEq, Repr

/-- Go `http.StripPrefix(pre, h)`: with an empty `pre` it returns `h` itself. -/
def StripPrefix (pre : Str) (h : Handler) : Handler :=
  if pre = [] then h else Handler.stripped pre h

/-- Go `strings.TrimPrefix(s, pre)`. -/
def TrimPrefix (s pre : Str) : Str :=
  if pre.isPrefixOf s then s.drop pre.length else s

/-- Go `net/url.URL`, as far as routing and the handlers of `main` read it: the decoded
path, and the path as it was written when that is not the default encoding of `Path`
(empty otherwise). -/
structure URL where
  Path : Str
  RawPath : Str
  deriving DecidableEq, Repr

/-- What serving a request through a handler of `main` leads to. -/
inductive Served where
  /-- `http.NotFound`: the 404 reply. -/
  | notFound
  /-- The file server rooted at `root` is asked for the URL path `path` (the `URL.Path`
  of the request it receives). -/
  | files (root : Str) (path : Str)
  /-- A method of `*application` runs; the request has URL path `path`. -/
  | app (h : Handler) (path : Str)
  deriving DecidableEq, Repr

/-- `ServeHTTP` of a handler, on a request with the URL `u`. For `StripPrefix`: the
prefix is cut off `URL.Path` and off `URL.RawPath`; the request is passed on when the
path had the prefix and the raw path is empty or had it too, and answered with
`NotFound` otherwise. -/
def Handler.ServeHTTP : Handler → URL → Served
  | Handler.FileServer root, u => Served.files root u.Path
  | Handler.stripped pre h, u =>
    if (TrimPrefix u.Path pre).length < u.Path.length ∧
        (u.RawPath = [] ∨ (TrimPrefix u.RawPath pre).length < u.RawPath.length) then
      h.ServeHTTP { Path := TrimPrefix u.Path pre, RawPath := TrimPrefix u.RawPath pre }
    else Served.notFound
  | Handler.home, u => Served.app Handler.home u.Path
  | Handler.snippetView, u => Served.app Handler.snippetView u.Path
  | Handler.snippetCreate, u => Served.app Handler.snippetCreate u.Path
  | Handler.snippetCreatePost, u => Served.app Handler.snippetCreatePost u.Path

/-! ## `net/url`: percent-escapes -/

/-- Go `net/url.ishex`. -/
def ishex (c : Char) : Bool :=
  ('0' ≤ c && c ≤ '9') || ('a' ≤ c && c ≤ 'f') || ('A' ≤ c && c ≤ 'F')

/-- Go `net/url.unhex`. -/
def unhex (c : Char) : Nat :=
  if '0' ≤ c ∧ c ≤ '9' then c.toNat - '0'.toNat
  else if 'a' ≤ c ∧ c ≤ 'f' then c.toNat - 'a'.toNat + 10
  else if 'A' ≤ c ∧ c ≤ 'F' then c.toNat - 'A'.toNat + 10
  else 0

/-- Go `net/url.unescape` in the modes `encodePath` and `encodePathSegment`, which
decode alike: every `%` must be followed by two hexadecimal digits (`none` is the
`EscapeError` otherwise), and `%XY` becomes the byte `0xXY`. -/
def unescape : Str → Option Str
  | [] => some []
  | c :: cs =>
    if c = '%' then
      match cs with
      | a :: b :: rest =>
        if ishex a ∧ ishex b then
          (unescape rest).map (fun t => Char.ofNat (unhex a * 16 + unhex b) :: t)
        else none
      | _ => none
    else (unescape cs).map (fun t => c :: t)

/-- Go `net/http.pathUnescape`: the decoded string, or the string as written when an
escape in it is malformed. -/
def pathUnescape (path : Str) : Str :=
  (unescape path).getD path

/-- Go `net/url.shouldEscape` in the mode `encodePath`. -/
def shouldEscape (c : Char) : Bool :=
  if c.isAlphanum then false
  else if c ∈ ['-', '_', '.', '~'] then false
  else if c ∈ ['$', '&', '+', ',', '/', ':', ';', '=', '?', '@'] then c = '?'
  else true

/-- The digit `"0123456789ABCDEF"[n]`. -/
def upperhex (n : Nat) : Char :=
  "0123456789ABCDEF".toList.getD n '0'

/-- Go `net/url.escape` in the mode `encodePath`: every byte that `shouldEscape` names
becomes `%XY`. -/
def escape : Str → Str
  | [] => []
  | c :: cs =>
    if shouldEscape c then
      '%' :: upperhex (c.toNat / 16) :: upperhex (c.toNat % 16) :: escape cs
    else c :: escape cs

/-- Go `net/url.validEncoded` in the mode `encodePath`. -/
def validEncoded (s : Str) : Bool :=
  s.all (fun c =>
    c ∈ ['!', '$', '&', '\x27', '(', ')', '*', '+', ',', ';', '=', ':', '@', '[', ']', '%'] ||
      !shouldEscape c)

/-- Go `(*URL).EscapedPath`: `RawPath` when it is a valid encoding of `Path`, and the
default encoding of `Path` otherwise. -/
def URL.EscapedPath (u : URL) : Str :=
  if u.RawPath ≠ [] ∧ validEncoded u.RawPath ∧ unescape u.RawPath = some u.Path then u.RawPath
  else if u.Path = "*".toList then "*".toList
  else escape u.Path

/-- Go `(*URL).setPath(p)` on a fresh URL: the URL whose path was written as `p`; `none`
is the error for a malformed escape. -/
def URL.setPath (p : Str) : Option URL :=
  (unescape p).map (fun path =>
    { Path := path, RawPath := if escape path = p then [] else p })

/-! ## `net/http`: request paths -/

/-- Splits a path at every `/`. -/
def splitSlash : Str → List Str
  | [] => [[]]
  | c :: cs =>
    if c = '/' then [] :: splitSlash cs
    else
      match splitSlash cs with
      | [] => [[c]]
      | e :: es => (c :: e) :: es

/-- The loop of Go `path.Clean` on a rooted path, element by element: `out` holds the
elements written so far, last one first. Empty elements and `.` are skipped, `..` removes
the last element written (and nothing at the root), anything else is written. -/
def cleanElems : List Str → List Str → List Str
  | [], out => out.reverse
  | e :: es, out =>
    if e = [] ∨ e = ".".toList then cleanElems es out
    else if e = "..".toList then cleanElems es (out.drop 1)
    else cleanElems es (e :: out)

/-- Writes `/e₁/e₂/.../eₙ`. -/
def joinSlash : List Str → Str
  | [] => []
  | e :: es => '/' :: e ++ joinSlash es

/-- Go `path.Clean(p)` for a path `p` that begins with `/` (the only paths `cleanPath`
hands to it). -/
def Clean (p : Str) : Str :=
  match cleanElems (splitSlash p) [] with
  | [] => "/".toList
  | es => joinSlash es

/-- Go `net/http.cleanPath`: the canonical form of a request path, without `.` and `..`
elements and repeated slashes, keeping a trailing slash. -/
def cleanPath (p : Str) : Str :=
  if p = [] then "/".toList
  else
    let p := if p.head? ≠ some '/' then '/' :: p else p
    let np := Clean p
    if p.getLast? = some '/' ∧ np ≠ "/".toList then
      if p.length = np.length + 1 ∧ np.isPrefixOf p then p else np ++ "/".toList
    else np

/-- Go `net/http.firstSegment`: the first segment of a path and the rest. The path
begins with `/`; a path that is just `/` gives the segment `/`. The segment is returned
unescaped, if possible. -/
def firstSegment (path : Str) : Str × Str :=
  if path = "/".toList then ("/".toList, [])
  else (pathUnescape ((path.drop 1).takeWhile (fun c => c ≠ '/')),
    (path.drop 1).dropWhile (fun c => c ≠ '/'))

/-! ## `net/http`: patterns -/

/-- Go `net/http.segment`: a literal (`wild = false`; `s = "/"` stands for the end
marker of the pattern), a single wildcard of name `s`, or a multi wildcard (a trailing
slash gives a multi wildcard with the empty name). -/
structure segment where
  s : Str
  wild : Bool
  multi : Bool
  deriving DecidableEq, Repr

/-- Go `net/http.pattern`. -/
structure pattern where
  str : Str
  method : Str
  host : Str
  segments : List segment
  deriving DecidableEq, Repr

/-- Go `httpguts.IsTokenRune`, the characters of an HTTP method name. -/
def isToken (c : Char) : Bool :=
  c.isAlphanum || c ∈ ['!', '#', '$', '%', '&', '\x27', '*', '+', '-', '.', '^', '_', '\x60', '|', '~']

/-- Go `net/http.validMethod`. -/
def validMethod (method : Str) : Bool :=
  method ≠ [] && method.all isToken

/-- Go `net/http.isValidWildcardName` (a Go identifier), for names written in ASCII. -/
def isValidWildcardName (s : Str) : Bool :=
  match s with
  | [] => false
  | c :: cs => (c.isAlpha || c = '_') && cs.all (fun d => d.isAlpha || d = '_' || d.isDigit)

/-- The segment loop of Go `net/http.parsePattern`, bounded by `fuel` iterations (every
iteration removes the leading slash of `rest`). `seen` are the wildcard names met so far,
`acc` the segments parsed so far; `none` is a parse error. -/
def parseSegments : Nat → Str → List Str → List segment → Option (List segment)
  | 0, rest, _, acc => if rest = [] then some acc else none
  | fuel + 1, rest, seen, acc =>
    if rest = [] then some acc
    else
      let rest := rest.drop 1
      if rest = [] then
        -- trailing slash
        some (acc ++ [{ s := [], wild := true, multi := true }])
      else
        let seg := rest.takeWhile (fun c => c ≠ '/')
        let rest := rest.dropWhile (fun c => c ≠ '/')
        if '\x7b' ∉ seg then
          -- literal
          parseSegments fuel rest seen
            (acc ++ [{ s := pathUnescape seg, wild := false, multi := false }])
        else if seg.head? ≠ some '\x7b' then none
        else if seg.getLast? ≠ some '\x7d' then none
        else
          let name := (seg.drop 1).dropLast
          if name = ['$'] then
            if rest ≠ [] then none
            else some (acc ++ [{ s := "/".toList, wild := false, multi := false }])
          else
            let multi := "...".toList.isSuffixOf name
            let name := if multi then name.take (name.length - 3) else name
            if multi ∧ rest ≠ [] then none
            else if name = [] then none
            else if ¬ isValidWildcardName name then none
            else if name ∈ seen then none
            else
              parseSegments fuel rest (name :: seen)
                (acc ++ [{ s := name, wild := true, multi := multi }])

/-- Go `net/http.parsePattern`: `[METHOD ][HOST]/[PATH]`. `none` is a parse error (on
which registration panics). -/
def parsePattern (s : Str) : Option pattern :=
  if s = [] then none
  else
    let found := s.any (fun c => c = ' ' || c = '\t')
    let method := if found then s.takeWhile (fun c => !(c = ' ' || c = '\t')) else []
    let rest :=
      if found then
        ((s.dropWhile (fun c => !(c = ' ' || c = '\t'))).drop 1).dropWhile
          (fun c => c = ' ' || c = '\t')
      else s
    if method ≠ [] ∧ ¬ validMethod method then none
    else if '/' ∉ rest then none
    else
      let host := rest.takeWhile (fun c => c ≠ '/')
      let rest := rest.dropWhile (fun c => c ≠ '/')
      if '\x7b' ∈ host then none
      else if method ≠ [] ∧ method ≠ "CONNECT".toList ∧ rest ≠ cleanPath rest then none
      else
        (parseSegments rest.length rest [] []).map
          (fun segs => { str := s, method := method, host := host, segments := segs })

/-- Go `(*pattern).lastSegment`. -/
def pattern.lastSegment (p : pattern) : segment :=
  p.segments.getLast?.getD { s := [], wild := false, multi := false }

/-! ## `net/http`: the routing tree -/

/-- Go `net/http.routingNode`: a node of the decision tree. A leaf holds a pattern and
its handler; an interior node maps a key (host, then method, then path segments) to a
child. `emptyChild` is the child for the key `""` (a single wildcard), `multiChild` the
child for a multi wildcard. -/
inductive routingNode where
  | mk (pattern : Option pattern) (handler : Option Handler)
      (children : List (Str × routingNode)) (multiChild : Option routingNode)
      (emptyChild : Option routingNode)

namespace routingNode

/-- The zero value `&routingNode{}`. -/
def empty : routingNode := mk none none [] none none

/-- Field `pattern`. -/
def pattern : routingNode → Option Snippetbox.pattern
  | mk p _ _ _ _ => p

/-- Field `handler`. -/
def handler : routingNode → Option Handler
  | mk _ h _ _ _ => h

/-- Field `children`. -/
def children : routingNode → List (Str × routingNode)
  | mk _ _ c _ _ => c

/-- Field `multiChild`. -/
def multiChild : routingNode → Option routingNode
  | mk _ _ _ m _ => m

/-- Field `emptyChild`. -/
def emptyChild : routingNode → Option routingNode
  | mk _ _ _ _ e => e

/-- The order in which keys are kept: by character code, a proper prefix first. -/
def keyLt : Str → Str → Bool
  | _, [] => false
  | [], _ :: _ => true
  | a :: as, b :: bs => a.toNat < b.toNat || (a = b && keyLt as bs)

/-- Go `mapping.find` on the children of a node. -/
def find (cs : List (Str × routingNode)) (key : Str) : Option routingNode :=
  match cs with
  | [] => none
  | (k, c) :: rest => if k = key then some c else find rest key

/-- Go `(*routingNode).findChild`. -/
def findChild (n : routingNode) (key : Str) : Option routingNode :=
  if key = [] then n.emptyChild else find n.children key

/-- Go `(*routingNode).set`; `none` is the panic on a leaf that is already set. -/
def set (n : routingNode) (p : Snippetbox.pattern) (h : Handler) : Option routingNode :=
  match n with
  | mk none none c m e => some (mk (some p) (some h) c m e)
  | _ => none

/-- Go `mapping.add` on the children of a node, also used to replace a child. The
children form a map from keys to nodes, which has no order of its own; the list keeps
the keys in increasing order, so that a map has one representation. -/
def put (cs : List (Str × routingNode)) (key : Str) (c : routingNode) :
    List (Str × routingNode) :=
  match cs with
  | [] => [(key, c)]
  | (k, c') :: rest =>
    if k = key then (k, c) :: rest
    else if keyLt key k then (key, c) :: (k, c') :: rest
    else (k, c') :: put rest key c

/-- The child that Go `(*routingNode).addChild(key)` returns: the one already there or a
fresh node. -/
def addChild (n : routingNode) (key : Str) : routingNode :=
  (n.findChild key).getD empty

/-- The node `n` after its child for `key` has become `c`. -/
def withChild (n : routingNode) (key : Str) (c : routingNode) : routingNode :=
  match n with
  | mk p h cs m e => if key = [] then mk p h cs m (some c) else mk p h (put cs key c) m e

/-- Go `(*routingNode).addSegments`; `none` is a panic. -/
def addSegments (n : routingNode) (segs : List segment) (p : Snippetbox.pattern)
    (h : Handler) : Option routingNode :=
  match segs with
  | [] => n.set p h
  | seg :: rest =>
    if seg.multi then
      if rest ≠ [] then none
      else
        match n, empty.set p h with
        | mk p' h' cs _ e, some c => some (mk p' h' cs (some c) e)
        | _, none => none
    else if seg.wild then
      ((n.addChild []).addSegments rest p h).map (n.withChild [])
    else
      ((n.addChild seg.s).addSegments rest p h).map (n.withChild seg.s)

/-- Go `(*routingNode).addPattern`: first level of the tree is the host, second the
method, the remaining levels are the path. -/
def addPattern (root : routingNode) (p : Snippetbox.pattern) (h : Handler) :
    Option routingNode :=
  let hostNode := root.addChild p.host
  let methodNode := hostNode.addChild p.method
  (methodNode.addSegments p.segments p h).map
    (fun m => root.withChild p.host (hostNode.withChild p.method m))

/-- Go `(*routingNode).matchPath`, bounded by `fuel` recursive calls. Returns the leaf
matched and the wildcard values. -/
def matchPathFuel : Nat → Option routingNode → Str → List Str →
    Option (routingNode × List Str)
  | _, none, _, _ => none
  | fuel, some n, path, matched =>
    if path = [] then
      if n.pattern = none then none else some (n, matched)
    else
      match fuel with
      | 0 => none
      | fuel + 1 =>
        let seg := (firstSegment path).1
        let rest := (firstSegment path).2
        -- first a child with a literal for this position
        match matchPathFuel fuel (n.findChild seg) rest matched with
        | some r => some r
        | none =>
          -- then a single wildcard, which does not match a trailing slash
          match (if seg ≠ "/".toList then
              matchPathFuel fuel n.emptyChild rest (matched ++ [seg]) else none) with
          | some r => some r
          | none =>
            -- lastly the multi wildcard, matching the rest of the path
            match n.multiChild with
            | some c =>
              if (c.pattern.map (fun p => p.lastSegment.s)).getD [] ≠ [] then
                some (c, matched ++ [pathUnescape (path.drop 1)])
              else some (c, matched)
            | none => none

/-- Go `(*routingNode).matchPath`: each recursive call is on a shorter path, so
`path.length` calls are enough. -/
def matchPath (n : Option routingNode) (path : Str) (matched : List Str) :
    Option (routingNode × List Str) :=
  matchPathFuel path.length n path matched

/-- Go `(*routingNode).matchMethodAndPath`. -/
def matchMethodAndPath (n : Option routingNode) (method path : Str) :
    Option (routingNode × List Str) :=
  match n with
  | none => none
  | some n =>
    match matchPath (n.findChild method) path [] with
    | some r => some r
    | none =>
      match (if method = "HEAD".toList then
          matchPath (n.findChild "GET".toList) path [] else none) with
      | some r => some r
      | none => matchPath n.emptyChild path []

/-- Go `(*routingNode).match`, called on the root. -/
def «match» (root : routingNode) (host method path : Str) : Option (routingNode × List Str) :=
  match (if host ≠ [] then matchMethodAndPath (root.findChild host) method path else none) with
  | some r => some r
  | none => matchMethodAndPath root.emptyChild method path

/-- Go `(*routingNode).matchingMethodsPath`: the methods, among the children of a host
node, whose subtree has a match for `path`. -/
def matchingMethodsPath (n : Option routingNode) (path : Str) : List Str :=
  match n with
  | none => []
  | some n =>
    (n.children.filter (fun mc => (matchPath (some mc.2) path []).isSome)).map Prod.fst

/-- Go `(*routingNode).matchingMethods`, called on the root. -/
def matchingMethods (root : routingNode) (host path : Str) : List Str :=
  let ms := (if host ≠ [] then matchingMethodsPath (root.findChild host) path else []) ++
    matchingMethodsPath root.emptyChild path
  if "GET".toList ∈ ms then ms ++ ["HEAD".toList] else ms

end routingNode

/-! ## `net/http`: `ServeMux` -/

/-- An incoming request (Go `http.Request`), as far as routing looks at it. The query
string plays no part in the choice of the handler and is left out. -/
structure Request where
  Method : Str
  RequestURI : Str
  Host : Str
  URL : URL
  deriving DecidableEq, Repr

/-- Go `net/http.ServeMux`. -/
structure ServeMux where
  tree : routingNode
  patterns : List pattern

/-- Go `http.NewServeMux()`. -/
def NewServeMux : ServeMux := { tree := routingNode.empty, patterns := [] }

/-- Go `(*ServeMux).Handle(pattern, handler)`; `none` is a panic (the pattern does not
parse). The check that panics when the new pattern conflicts with a registered one is
not modelled. -/
def ServeMux.Handle (mux : ServeMux) (pat : Str) (h : Handler) : Option ServeMux :=
  match parsePattern pat with
  | none => none
  | some p =>
    (mux.tree.addPattern p h).map (fun t => { tree := t, patterns := mux.patterns ++ [p] })

/-- Go `(*ServeMux).HandleFunc(pattern, handler)`. -/
def ServeMux.HandleFunc (mux : ServeMux) (pat : Str) (h : Handler) : Option ServeMux :=
  mux.Handle pat h

/-- The handler the multiplexer picks for a request (the first result of Go
`(*ServeMux).findHandler`, and the reply of `ServeHTTP` to `*`). -/
inductive Dispatch where
  /-- Status 400, the multiplexer's reply to the request target `*` (the server answers
  `OPTIONS *` by itself, without calling the multiplexer). -/
  | badRequest
  /-- A `RedirectHandler`: the reply is a redirect; `url` is the `Path` of the URL it
  points to. -/
  | redirect (url : Str)
  /-- Status 405 with an `Allow` header. -/
  | methodNotAllowed
  /-- `NotFoundHandler()`: status 404. -/
  | notFound
  /-- A registered handler, with the pattern it was registered under and the values of
  the wildcards of that pattern. -/
  | handler (h : Handler) (pat : pattern) (matched : List Str)
  deriving DecidableEq, Repr

/-- Go `net/http.exactMatch`. -/
def exactMatch (n : Option (routingNode × List Str)) (path : Str) : Bool :=
  match n with
  | none => false
  | some (n, _) =>
    match n.pattern with
    | none => false
    | some p =>
      if ¬ p.lastSegment.multi then true
      else if path ≠ [] ∧ path.getLast? ≠ some '/' then false
      else p.segments.length = path.count '/'

/-- Go `(*ServeMux).matchOrRedirect`. `redirect = true` is the call with the request URL,
`false` the call with a nil URL. Returns the match, or the path to redirect to when the
path without its trailing slash is asked for and only the one with it is registered. -/
def ServeMux.matchOrRedirect (mux : ServeMux) (host method path : Str) (redirect : Bool)
    (urlPath : Str) : Option (routingNode × List Str) × Option Str :=
  let n := mux.tree.«match» host method path
  if ¬ exactMatch n path ∧ redirect ∧ path.getLast? ≠ some '/' then
    if exactMatch (mux.tree.«match» host method (path ++ "/".toList)) (path ++ "/".toList) then
      (none, some (cleanPath urlPath ++ "/".toList))
    else (n, none)
  else (n, none)

/-- Go `(*ServeMux).matchingMethods`. -/
def ServeMux.matchingMethods (mux : ServeMux) (host path : Str) : List Str :=
  let ms := mux.tree.matchingMethods host path
  if path.getLast? ≠ some '/' then
    ms ++ mux.tree.matchingMethods host (path ++ "/".toList)
  else ms

/-- The end of Go `(*ServeMux).findHandler`: the matched leaf, or 405 when another
method would match, or 404. -/
def ServeMux.found (mux : ServeMux) (n : Option (routingNode × List Str)) (host path : Str) :
    Dispatch :=
  match n with
  | none =>
    if mux.matchingMethods host path ≠ [] then Dispatch.methodNotAllowed
    else Dispatch.notFound
  | some (n, matched) =>
    match n.handler, n.pattern with
    | some h, some p => Dispatch.handler h p matched
    | _, _ => Dispatch.notFound

/-- Go `(*ServeMux).findHandler`. The path that is routed is the escaped path of the
URL. The request's host is used as given (no pattern of `main` names a host). -/
def ServeMux.findHandler (mux : ServeMux) (r : Request) : Dispatch :=
  if r.Method = "CONNECT".toList then
    -- CONNECT requests are not canonicalized
    match (mux.matchOrRedirect r.Host r.Method r.URL.EscapedPath true r.URL.Path).2 with
    | some u => Dispatch.redirect u
    | none =>
      mux.found (mux.matchOrRedirect r.Host r.Method r.URL.EscapedPath false r.URL.Path).1
        r.Host r.URL.EscapedPath
  else
    let path := cleanPath r.URL.EscapedPath
    match mux.matchOrRedirect r.Host r.Method path true r.URL.Path with
    | (_, some u) => Dispatch.redirect u
    | (n, none) =>
      if path ≠ r.URL.EscapedPath then Dispatch.redirect path
      else mux.found n r.Host path

/-- Go `(*ServeMux).ServeHTTP`: which handler serves the request. -/
def ServeMux.ServeHTTP (mux : ServeMux) (r : Request) : Dispatch :=
  if r.RequestURI = "*".toList then Dispatch.badRequest else mux.findHandler r

/-- Go `(*Request).PathValue(name)` for a request dispatched under `pat` with wildcard
values `matched`: the value of the wildcard `name`, or the empty string. -/
def PathValue (pat : pattern) (matched : List Str) (name : Str) : Str :=
  match ((pat.segments.filter (fun seg => seg.wild && seg.s ≠ [])).map (fun seg => seg.s)).indexOf? name with
  | some i => matched.getD i []
  | none => []

/-! ## `main`: the routes -/

/-- Line 50: `fileServer := http.FileServer(http.Dir("./ui/static/"))`. -/
def fileServer : Handler := Handler.FileServer staticRoot

/-- Lines 55-62 of `main`: the five registrations, in source order. The patterns are,
as written in the source, `GET /static/`, `GET /{$}`, `GET /snippet/view/{id}`,
`GET /snippet/create` and `POST /snippet/create`. -/
def routeTable : List (Str × Handler) :=
  [("GET /static/".toList, StripPrefix "/static".toList fileServer),
   ("GET /\x7b$\x7d".toList, Handler.home),
   ("GET /snippet/view/\x7bid\x7d".toList, Handler.snippetView),
   ("GET /snippet/create".toList, Handler.snippetCreate),
   ("POST /snippet/create".toList, Handler.snippetCreatePost)]

/-- Registers the entries of a table one after the other on `mux` (`main` calls `Handle`
for the first entry and `HandleFunc` for the others; both register alike). -/
def ServeMux.register (mux : ServeMux) : List (Str × Handler) → Option ServeMux
  | [] => some mux
  | (pat, h) :: rest => (mux.Handle pat h).bind (fun m => m.register rest)

/-- Lines 45-62 of `main`: `mux := http.NewServeMux()` followed by the five
registrations. None of them panics (`register_routeTable`), so the default is never
used. -/
def mux : ServeMux := (NewServeMux.register routeTable).getD NewServeMux

/-- The request with method `method` and `Host` header `host` whose URL has the path `p`
in its default encoding (`URL.RawPath` is empty). The request target is taken to be `p`,
as it is when no byte of `p` needs an escape. -/
def request (method host p : Str) : Request :=
  { Method := method, RequestURI := p, Host := host, URL := { Path := p, RawPath := [] } }

/-! ## Route entries, one at a time

What it means for one route entry to match a request, as the documentation of
`ServeMux` explains it: the methods agree (a `GET` pattern also takes `HEAD`), and the
path matches the pattern segment by segment. -/

/-- A pattern method against a request method. -/
def methodMatches (patMethod method : Str) : Bool :=
  patMethod = [] || patMethod = method || (patMethod = "GET".toList && method = "HEAD".toList)

/-- Pattern segments against a path: the wildcard values when the path matches. -/
def matchSegments : List segment → Str → Option (List Str)
  | [], path => if path = [] then some [] else none
  | seg :: segs, path =>
    if path = [] then none
    else if seg.multi then
      some (if seg.s ≠ [] then [pathUnescape (path.drop 1)] else [])
    else if seg.wild then
      if (firstSegment path).1 = "/".toList then none
      else (matchSegments segs (firstSegment path).2).map (fun m => (firstSegment path).1 :: m)
    else if (firstSegment path).1 = seg.s then matchSegments segs (firstSegment path).2
    else none

/-- A parsed route entry: the pattern and its handler. -/
abbrev Route := pattern × Handler

/-- The route entry matches the method and path. -/
def Route.accepts (e : Route) (method path : Str) : Bool :=
  methodMatches e.1.method method && (matchSegments e.1.segments path).isSome

/-- The parsed form of a table (entries whose pattern does not parse are dropped; there
are none in `routeTable`). -/
def parseTable (t : List (Str × Handler)) : List Route :=
  t.filterMap (fun e => (parsePattern e.1).map (fun p => (p, e.2)))

/-- First-match dispatch over a list of route entries. -/
def firstMatch (t : List Route) (method path : Str) : Option Route :=
  t.find? (fun e => e.accepts method path)


/-! ## The five routes in parsed form

Names for what the registrations of `main` produce; `parseTable_routeTable` and
`mux_tree` show that parsing and registering the source strings gives exactly these. -/

/-- The handler registered for the static files (line 55). -/
def staticHandler : Handler := Handler.stripped "/static".toList (Handler.FileServer staticRoot)

/-- `GET /static/` parsed. -/
def patStatic : pattern :=
  { str := "GET /static/".toList, method := "GET".toList, host := [],
    segments := [{ s := "static".toList, wild := false, multi := false },
                 { s := [], wild := true, multi := true }] }

/-- `GET /{$}` parsed. -/
def patHome : pattern :=
  { str := "GET /\x7b$\x7d".toList, method := "GET".toList, host := [],
    segments := [{ s := "/".toList, wild := false, multi := false }] }

/-- `GET /snippet/view/{id}` parsed. -/
def patView : pattern :=
  { str := "GET /snippet/view/\x7bid\x7d".toList, method := "GET".toList, host := [],
    segments := [{ s := "snippet".toList, wild := false, multi := false },
                 { s := "view".toList, wild := false, multi := false },
                 { s := "id".toList, wild := true, multi := false }] }

/-- `GET /snippet/create` parsed. -/
def patCreate : pattern :=
  { str := "GET /snippet/create".toList, method := "GET".toList, host := [],
    segments := [{ s := "snippet".toList, wild := false, multi := false },
                 { s := "create".toList, wild := false, multi := false }] }

/-- `POST /snippet/create` parsed. -/
def patCreatePost : pattern :=
  { str := "POST /snippet/create".toList, method := "POST".toList, host := [],
    segments := [{ s := "snippet".toList, wild := false, multi := false },
                 { s := "create".toList, wild := false, multi := false }] }

/-- The route entries of `main`, parsed. -/
def routes : List Route :=
  [(patStatic, staticHandler), (patHome, Handler.home), (patView, Handler.snippetView),
   (patCreate, Handler.snippetCreate), (patCreatePost, Handler.snippetCreatePost)]

/-- A leaf of the routing tree. -/
def leaf (p : pattern) (h : Handler) : routingNode :=
  routingNode.mk (some p) (some h) [] none none

/-- The subtree of the routing tree of `main` for the method `GET`. -/
def getNode : routingNode :=
  routingNode.mk none none
    [("/".toList, leaf patHome Handler.home),
     ("snippet".toList, routingNode.mk none none
        [("create".toList, leaf patCreate Handler.snippetCreate),
         ("view".toList, routingNode.mk none none [] none (some (leaf patView Handler.snippetView)))]
        none none),
     ("static".toList, routingNode.mk none none [] (some (leaf patStatic staticHandler)) none)]
    none none

/-- The subtree of the routing tree of `main` for the method `POST`. -/
def postNode : routingNode :=
  routingNode.mk none none
    [("snippet".toList, routingNode.mk none none
        [("create".toList, leaf patCreatePost Handler.snippetCreatePost)] none none)]
    none none

/-- The routing tree of `main`: no host-specific subtree, and under the host-less child
one subtree per method. -/
def routeTree : routingNode :=
  routingNode.mk none none [] none
    (some (routingNode.mk none none [("GET".toList, getNode), ("POST".toList, postNode)] none none))

/-- The wildcard values with which a route entry matches a path. -/
def Route.captures (e : Route) (path : Str) : List Str :=
  (matchSegments e.1.segments path).getD []

/-- The dispatch to a route entry. -/
def Route.dispatch (e : Route) (path : Str) : Dispatch :=
  Dispatch.handler e.2 e.1 (e.captures path)

/-- The tree match that corresponds to a route entry. -/
def Route.hit (e : Route) (p : Str) : routingNode × List Str :=
  (leaf e.1 e.2, e.captures p)


/-- No route entry has a pattern that matches the path, whatever the method. -/
def noPathMatch (p : Str) : Prop :=
  ∀ e ∈ routes, matchSegments e.1.segments p = none

instance (p : Str) : Decidable (noPathMatch p) := by
  unfold noPathMatch; infer_instance

/-- Two lists agree element by element under `f`. -/
def listAll2 {α : Type} (f : α → α → Bool) : List α → List α → Bool
  | [], [] => true
  | a :: as, b :: bs => f a b && listAll2 f as bs
  | _, _ => false

/-- Two optional values agree under `f`. -/
def optAll2 {α : Type} (f : α → α → Bool) : Option α → Option α → Bool
  | none, none => true
  | some a, some b => f a b
  | _, _ => false

/-- Equality test for routing trees of depth below `d`. -/
def routingNode.same : Nat → routingNode → routingNode → Bool
  | 0, _, _ => false
  | d + 1, routingNode.mk p h cs m e, routingNode.mk p' h' cs' m' e' =>
    decide (p = p') && decide (h = h') &&
      listAll2 (fun a b => decide (a.1 = b.1) && routingNode.same d a.2 b.2) cs cs' &&
      optAll2 (routingNode.same d) m m' && optAll2 (routingNode.same d) e e'

/-! ## `main`: start-up and exit -/

/-- The two `slog` severities `main` logs at. -/
inductive Level where
  | info
  | error
  deriving DecidableEq, Repr

/-- Observable actions of `main`. -/
inductive Event where
  /-- One record of the JSON logger on standard output: severity, message, attributes. -/
  | log (level : Level) (msg : Str) (attrs : List (Str × Str))
  /-- The call `http.ListenAndServe(addr, handler)`. -/
  | listenAndServe (addr : Str) (handler : ServeMux)

/-- The action is an error-severity log record. -/
def Event.isError : Event → Bool
  | Event.log Level.error _ _ => true
  | _ => false

/-- What a run of `main` does: its actions in order, and the exit status of the process
(`none` when the process does not exit because the server keeps serving). -/
structure Run where
  events : List Event
  exit : Option Nat

/-- The function `main`. `args` are the command-line arguments; `serveErr` is what
`http.ListenAndServe` does: `none` when it never returns, `some d` when it returns an
error whose `Error()` text is `d` (it never returns a nil error). The steps are:
`flag.Parse()` (lines 21-33), which ends the process when the arguments do not parse;
the logger, the application struct and the multiplexer with its routes (lines 35-62);
the info record (line 66); `ListenAndServe` on the configured address with the
multiplexer (line 69); the error record and `os.Exit(1)` (lines 74-75). -/
def main (args : List Str) (serveErr : Option Str) : Run :=
  match loadConfig args with
  | Except.error e => { events := [], exit := some e.exitStatus }
  | Except.ok cfg =>
    let started := [Event.log Level.info "starting server".toList [("addr".toList, cfg.addr)],
                    Event.listenAndServe cfg.addr mux]
    match serveErr with
    | none => { events := started, exit := none }
    | some d => { events := started ++ [Event.log Level.error d []], exit := some 1 }



/-! ## Lemmas: the flag loop -/

theorem takeWhile_ne_split (c : Char) (cs : Str) (h : c ∈ cs) :
    cs = cs.takeWhile (fun x => x ≠ c) ++ c :: (cs.dropWhile (fun x => x ≠ c)).drop 1 := by
  induction cs with
  | nil => simp at h
  | cons a t ih =>
    by_cases hac : a = c
    · subst hac; simp [List.takeWhile, List.dropWhile]
    · have ht : c ∈ t := by
        rcases List.mem_cons.1 h with h1 | h1
        · exact absurd h1.symm hac
        · exact h1
      have := ih ht
      simp only [List.takeWhile, List.dropWhile, ne_eq, hac, not_false_eq_true, decide_True,
        List.cons_append]
      exact congrArg (List.cons a) this

theorem addrSet_value (v : Str) (args : List Str) (name : Str) :
    (addrSet v args).value name = if name = "addr".toList then some v else none := by
  unfold FlagSet.value addrSet
  by_cases h : name = "addr".toList
  · subst h; simp
  · have h' : ¬ ("addr".toList = name) := fun e => h e.symm
    simp only [List.find?, h, h', decide_False, if_false, Option.map]

theorem addrFlagValues_cons (s : Str) (rest : List Str) :
    addrFlagValues (s :: rest) =
      if s = "-addr".toList ∨ s = "--addr".toList then
        match rest with
        | [] => []
        | v :: rest' => v :: addrFlagValues rest'
      else if "-addr=".toList.isPrefixOf s then s.drop 6 :: addrFlagValues rest
      else if "--addr=".toList.isPrefixOf s then s.drop 7 :: addrFlagValues rest
      else [] := by
  cases rest <;> rfl

theorem cutEquals_addr (name : Str) (val : Option Str)
    (h : cutEquals name = ("addr".toList, val)) :
    (val = none ∧ name = "addr".toList) ∨ (∃ x, val = some x ∧ name = "addr=".toList ++ x) := by
  rcases name with _ | ⟨c, cs⟩
  · simp [cutEquals] at h
  · simp only [cutEquals] at h
    by_cases hm : '=' ∈ cs
    · rw [if_pos hm] at h
      have hs := takeWhile_ne_split '=' cs hm
      simp only [Prod.mk.injEq] at h
      obtain ⟨h1, h2⟩ := h
      right
      refine ⟨_, h2.symm, ?_⟩
      have h3 : c = 'a' ∧ cs.takeWhile (fun x => x ≠ '=') = "ddr".toList := by
        simpa using h1
      rw [hs, h3.2, h3.1]
      simp
    · rw [if_neg hm] at h
      simp only [Prod.mk.injEq] at h
      left; exact ⟨h.2.symm, h.1⟩

theorem parseOne_dash (f : FlagSet) (c1 : Char) (t : Str) (rest : List Str)
    (h : f.args = ('-' :: c1 :: t) :: rest) :
    f.parseOne =
      if c1 = '-' ∧ t = [] then ({ f with args := rest }, false, none)
      else if (if c1 = '-' then t else c1 :: t).head? = some '-' ∨
          (if c1 = '-' then t else c1 :: t).head? = some '=' then
        (f, false, some FlagError.badSyntax)
      else flagStep { f with args := rest } (if c1 = '-' then t else c1 :: t) := by
  unfold FlagSet.parseOne
  rw [h]
  by_cases hc : c1 = '-'
  · subst hc
    rcases t with _ | ⟨d, t'⟩
    · simp
    · by_cases hd : d = '-' ∨ d = '='
      · simp [flagStep, show ¬ (t'.length + 1 + 1 + 1 < 2) by omega, hd]
      · simp [flagStep, show ¬ (t'.length + 1 + 1 + 1 < 2) by omega, hd]
        try rfl
  · by_cases hd : c1 = '='
    · simp [hc, flagStep, show ¬ (t.length + 1 + 1 < 2) by omega, hd]
    · simp [hc, flagStep, show ¬ (t.length + 1 + 1 < 2) by omega, hd]
      try rfl

theorem flagStep_addrSet (v name : Str) (rest : List Str) :
    ((flagStep (addrSet v rest) name).2.1 = true →
      (name = "addr".toList ∧ ∃ v' rest', rest = v' :: rest' ∧
        flagStep (addrSet v rest) name = (addrSet v' rest', true, none)) ∨
      (∃ x, name = "addr=".toList ++ x ∧
        flagStep (addrSet v rest) name = (addrSet x rest, true, none))) ∧
    ((flagStep (addrSet v rest) name).2.1 = false →
      (flagStep (addrSet v rest) name).2.2 ≠ none) := by
  unfold flagStep
  rw [addrSet_value]
  by_cases hn : (cutEquals name).1 = "addr".toList
  · rw [if_pos hn]
    have hce : cutEquals name = ("addr".toList, (cutEquals name).2) := by
      rw [← hn]
    rcases cutEquals_addr name _ hce with ⟨h1, h2⟩ | ⟨x, h1, h2⟩
    · rw [h1, hn]
      rcases rest with _ | ⟨v', rest'⟩
      · simp [addrSet]
      · refine ⟨fun _ => Or.inl ⟨h2, v', rest', rfl, ?_⟩, ?_⟩
        · simp [addrSet, FlagSet.set]
        · simp [addrSet]
    · rw [h1, hn]
      refine ⟨fun _ => Or.inr ⟨x, h2, ?_⟩, ?_⟩
      · simp [addrSet, FlagSet.set]
      · simp
  · rw [if_neg hn]
    split_ifs <;> simp

theorem parseOne_addrSet (v s : Str) (rest : List Str) :
    (((addrSet v (s :: rest)).parseOne).2.1 = true →
      ∃ v' rest', (addrSet v (s :: rest)).parseOne = (addrSet v' rest', true, none) ∧
        rest'.length ≤ rest.length ∧
        addrFlagValues (s :: rest) = v' :: addrFlagValues rest') ∧
    (((addrSet v (s :: rest)).parseOne).2.1 = false →
      ((addrSet v (s :: rest)).parseOne).2.2 = none →
      ((addrSet v (s :: rest)).parseOne).1.formal = [("addr".toList, v)] ∧
        addrFlagValues (s :: rest) = []) := by
  rcases s with _ | ⟨c0, _ | ⟨c1, t⟩⟩
  · simp [FlagSet.parseOne, addrSet, addrFlagValues_cons]
  · simp [FlagSet.parseOne, addrSet, addrFlagValues_cons]
  · by_cases h0 : c0 = '-'
    · subst h0
      rw [parseOne_dash (addrSet v (('-' :: c1 :: t) :: rest)) c1 t rest rfl]
      by_cases h1 : c1 = '-' ∧ t = []
      · obtain ⟨h1, h2⟩ := h1
        subst h1; subst h2
        simp [addrSet, addrFlagValues_cons]
      · rw [if_neg h1]
        by_cases h2 : (if c1 = '-' then t else c1 :: t).head? = some '-' ∨
          (if c1 = '-' then t else c1 :: t).head? = some '='
        · rw [if_pos h2]; simp
        · rw [if_neg h2]
          have hfs := flagStep_addrSet v (if c1 = '-' then t else c1 :: t) rest
          have e : ({ addrSet v (('-' :: c1 :: t) :: rest) with args := rest } : FlagSet) =
              addrSet v rest := rfl
          rw [e]
          refine ⟨fun hseen => ?_, fun hseen herr => absurd herr (hfs.2 hseen)⟩
          rcases hfs.1 hseen with ⟨hname, v', rest', hrest, heq⟩ | ⟨x, hname, heq⟩
          · refine ⟨v', rest', heq, ?_, ?_⟩
            · rw [hrest]; simp
            · by_cases hc : c1 = '-'
              · subst hc
                simp only [if_true] at hname
                subst hname; subst hrest
                simp [addrFlagValues_cons]
              · simp only [hc, if_false] at hname
                rw [hname]; subst hrest
                simp [addrFlagValues_cons]
          · refine ⟨x, rest, heq, le_refl _, ?_⟩
            by_cases hc : c1 = '-'
            · subst hc
              simp only [if_true] at hname
              subst hname
              simp [addrFlagValues_cons]
            · simp only [hc, if_false] at hname
              rw [hname]
              simp [addrFlagValues_cons]
    · have h0' : ¬ ('-' = c0) := fun e => h0 e.symm
      simp [FlagSet.parseOne, addrSet, addrFlagValues_cons, h0, h0']

theorem parseLoop_addrSet (fuel : Nat) : ∀ (args : List Str) (v : Str), args.length < fuel →
    ∃ r, FlagSet.parseLoop fuel (addrSet v args) = some r ∧
      (r.2 = none →
        r.1.value "addr".toList = some ((addrFlagValues args).getLast?.getD v)) := by
  induction fuel with
  | zero => intro args v h; exact absurd h (Nat.not_lt_zero _)
  | succ n ih =>
    intro args v hlen
    rcases args with _ | ⟨s, rest⟩
    · refine ⟨(addrSet v [], none), rfl, fun _ => ?_⟩
      simp [addrSet_value, addrFlagValues]
    · have hstep := parseOne_addrSet v s rest
      unfold FlagSet.parseLoop
      rcases hp : (addrSet v (s :: rest)).parseOne with ⟨f', seen, err⟩
      rw [hp] at hstep
      cases seen with
      | true =>
        obtain ⟨v', rest', heq, hle, hval⟩ := hstep.1 rfl
        have hf : f' = addrSet v' rest' := by
          have := congrArg Prod.fst heq
          simpa using this
        subst hf
        have hlt : rest'.length < n := by
          simp only [List.length_cons] at hlen; omega
        obtain ⟨r, hr, hrv⟩ := ih rest' v' hlt
        refine ⟨r, hr, fun hnone => ?_⟩
        rw [hrv hnone, hval]
        cases hl : addrFlagValues rest' with
        | nil => simp
        | cons a l =>
          obtain ⟨x, hx⟩ : ∃ x, (a :: l).getLast? = some x :=
            ⟨_, List.getLast?_eq_getLast _ (List.cons_ne_nil _ _)⟩
          have hx' : (v' :: a :: l).getLast? = some x := by
            rw [List.getLast?_cons_cons]; exact hx
          simp [hx, hx']
      | false =>
        refine ⟨(f', err), rfl, fun hnone => ?_⟩
        have h2 := hstep.2 rfl hnone
        have h3 : f'.formal = [("addr".toList, v)] := h2.1
        simp [FlagSet.value, h3, h2.2]

theorem Parse_addr (args : List Str) :
    ∃ r, CommandLine.Parse args = some r ∧
      (r.2 = none →
        r.1.value "addr".toList = some ((addrFlagValues args).getLast?.getD ":4000".toList)) :=
  parseLoop_addrSet (args.length + 1) args ":4000".toList (Nat.lt_succ_self _)

theorem loadConfig_ok (args : List Str) (cfg : config) (h : loadConfig args = Except.ok cfg) :
    cfg.addr = (addrFlagValues args).getLast?.getD ":4000".toList ∧ cfg.staticDir = [] := by
  obtain ⟨⟨f, err⟩, hr, hv⟩ := Parse_addr args
  unfold loadConfig at h
  rw [hr] at h
  cases err with
  | some e => simp at h
  | none =>
    simp only [Except.ok.injEq] at h
    rw [← h, hv rfl]
    simp


/-! ## Lemmas: the routing tree -/

open routingNode

theorem parseTable_routeTable : parseTable routeTable = routes := by decide

theorem register_routeTable :
    NewServeMux.register routeTable =
      some { tree := routeTree, patterns := routes.map Prod.fst } := by rfl

theorem mux_tree : mux.tree = routeTree := by rfl

theorem unescape_cons (c : Char) (cs : Str) (h : c ≠ '%') :
    unescape (c :: cs) = (unescape cs).map (fun t => c :: t) := by
  rw [unescape.eq_def]
  simp only [if_neg h]

theorem unescape_percent (a b : Char) (rest : Str) :
    unescape ('%' :: a :: b :: rest) =
      if ishex a ∧ ishex b then
        (unescape rest).map (fun t => Char.ofNat (unhex a * 16 + unhex b) :: t)
      else none := by
  rw [unescape.eq_2, if_pos rfl]

/-- Decoding gives the empty string for the empty string only. -/
theorem unescape_eq_nil (s : Str) (h : unescape s = some []) : s = [] := by
  rcases s with _ | ⟨c, cs⟩
  · rfl
  · exfalso
    by_cases hc : c = '%'
    · subst hc
      rcases cs with _ | ⟨a, _ | ⟨b, rest⟩⟩
      · simp [unescape] at h
      · simp [unescape] at h
      · rw [unescape_percent] at h
        split_ifs at h
        cases hu : unescape rest <;> simp [hu] at h
    · rw [unescape_cons c cs hc] at h
      cases hu : unescape cs <;> simp [hu] at h

theorem pathUnescape_eq_nil (s : Str) : pathUnescape s = [] ↔ s = [] := by
  constructor
  · intro h
    unfold pathUnescape at h
    cases hu : unescape s with
    | none => rw [hu] at h; exact h
    | some t =>
      rw [hu] at h
      have ht : t = [] := h
      subst ht
      exact unescape_eq_nil s hu
  · intro h; subst h; rfl

/-- A string without a percent sign decodes to itself. -/
theorem unescape_of_not_mem (s : Str) (h : '%' ∉ s) : unescape s = some s := by
  induction s with
  | nil => rfl
  | cons c cs ih =>
    have hc : c ≠ '%' := fun e => h (by rw [e]; exact List.mem_cons_self _ _)
    rw [unescape_cons c cs hc, ih (fun e => h (List.mem_cons_of_mem _ e))]
    rfl

theorem pathUnescape_of_not_mem (s : Str) (h : '%' ∉ s) : pathUnescape s = s := by
  unfold pathUnescape
  rw [unescape_of_not_mem s h]
  rfl

theorem firstSegment_length (p : Str) (h : p ≠ []) : (firstSegment p).2.length < p.length := by
  unfold firstSegment
  split_ifs with h1
  · subst h1; decide
  · rcases p with _ | ⟨c, cs⟩
    · exact absurd rfl h
    · simp only [List.drop_succ_cons, List.drop_zero, List.length_cons]
      have := (List.dropWhile_sublist (l := cs) (fun c => decide (c ≠ '/'))).length_le
      omega

theorem matchPathFuel_none (k : Nat) (p : Str) (m : List Str) :
    matchPathFuel k none p m = none := by
  cases k <;> rfl

theorem matchPathFuel_nil (k : Nat) (n : routingNode) (m : List Str) :
    matchPathFuel k (some n) [] m = if n.pattern = none then none else some (n, m) := by
  cases k <;> simp [matchPathFuel]

theorem matchPathFuel_succ (k : Nat) (n : routingNode) (p : Str) (m : List Str) (h : p ≠ []) :
    matchPathFuel (k + 1) (some n) p m =
      match matchPathFuel k (n.findChild (firstSegment p).1) (firstSegment p).2 m with
      | some r => some r
      | none =>
        match (if (firstSegment p).1 ≠ "/".toList then
            matchPathFuel k n.emptyChild (firstSegment p).2 (m ++ [(firstSegment p).1])
            else none) with
        | some r => some r
        | none =>
          match n.multiChild with
          | some c =>
            if (c.pattern.map (fun q => q.lastSegment.s)).getD [] ≠ [] then
              some (c, m ++ [pathUnescape (p.drop 1)])
            else some (c, m)
          | none => none := by
  rw [matchPathFuel]
  simp only [h, if_false]
  try rfl

theorem matchPathFuel_indep (k1 : Nat) : ∀ (k2 : Nat) (n : Option routingNode) (p : Str)
    (m : List Str), p.length ≤ k1 → p.length ≤ k2 →
    matchPathFuel k1 n p m = matchPathFuel k2 n p m := by
  induction k1 with
  | zero =>
    intro k2 n p m h1 _
    have hp : p = [] := List.length_eq_zero.1 (Nat.le_zero.1 h1)
    subst hp
    cases n with
    | none => rw [matchPathFuel_none, matchPathFuel_none]
    | some n => rw [matchPathFuel_nil, matchPathFuel_nil]
  | succ k ih =>
    intro k2 n p m h1 h2
    cases n with
    | none => rw [matchPathFuel_none, matchPathFuel_none]
    | some n =>
      by_cases hp : p = []
      · subst hp; rw [matchPathFuel_nil, matchPathFuel_nil]
      · have hlen := firstSegment_length p hp
        cases k2 with
        | zero =>
          exact absurd (List.length_eq_zero.1 (Nat.le_zero.1 h2)) hp
        | succ j =>
          rw [matchPathFuel_succ k n p m hp, matchPathFuel_succ j n p m hp]
          rw [ih j (n.findChild (firstSegment p).1) (firstSegment p).2 m (by omega) (by omega)]
          rw [ih j n.emptyChild (firstSegment p).2 (m ++ [(firstSegment p).1]) (by omega)
            (by omega)]

theorem matchPath_none (p : Str) (m : List Str) : matchPath none p m = none :=
  matchPathFuel_none _ _ _

theorem matchPath_nil (n : routingNode) (m : List Str) :
    matchPath (some n) [] m = if n.pattern = none then none else some (n, m) :=
  matchPathFuel_nil _ _ _

/-- The body of Go `matchPath` on a non-empty path. -/
theorem matchPath_cons (n : routingNode) (p : Str) (m : List Str) (h : p ≠ []) :
    matchPath (some n) p m =
      match matchPath (n.findChild (firstSegment p).1) (firstSegment p).2 m with
      | some r => some r
      | none =>
        match (if (firstSegment p).1 ≠ "/".toList then
            matchPath n.emptyChild (firstSegment p).2 (m ++ [(firstSegment p).1])
            else none) with
        | some r => some r
        | none =>
          match n.multiChild with
          | some c =>
            if (c.pattern.map (fun q => q.lastSegment.s)).getD [] ≠ [] then
              some (c, m ++ [pathUnescape (p.drop 1)])
            else some (c, m)
          | none => none := by
  have hlen := firstSegment_length p h
  obtain ⟨k, hk⟩ : ∃ k, p.length = k + 1 := by
    rcases p with _ | ⟨c, cs⟩
    · exact absurd rfl h
    · exact ⟨cs.length, rfl⟩
  unfold matchPath
  rw [hk, matchPathFuel_succ k n p m h]
  rw [matchPathFuel_indep k (firstSegment p).2.length _ _ m (by omega) (le_refl _)]
  rw [matchPathFuel_indep k (firstSegment p).2.length _ _ _ (by omega) (le_refl _)]


theorem firstSegment_rest (p : Str) :
    (firstSegment p).2 = [] ∨ ∃ q, (firstSegment p).2 = '/' :: q := by
  unfold firstSegment
  split_ifs with h
  · left; rfl
  · simp only
    have := List.head?_dropWhile_not (fun c => decide (c ≠ '/')) (p.drop 1)
    rcases hd : List.dropWhile (fun c => decide (c ≠ '/')) (p.drop 1) with _ | ⟨c, q⟩
    · left; rfl
    · right
      rw [hd] at this
      simp at this
      exact ⟨q, by rw [this]⟩

theorem firstSegment_slash (q : Str) (h : q ≠ []) :
    firstSegment ('/' :: q) =
      (pathUnescape (q.takeWhile (fun c => c ≠ '/')), q.dropWhile (fun c => c ≠ '/')) := by
  unfold firstSegment
  have : ¬ ('/' :: q = "/".toList) := by
    intro e; apply h; simpa using e
  rw [if_neg this]
  rfl

/-- After a non-empty rest, the next segment and rest are not both empty. -/
theorem firstSegment_next (p : Str) (h : (firstSegment p).2 ≠ []) :
    ¬ ((firstSegment (firstSegment p).2).1 = [] ∧ (firstSegment (firstSegment p).2).2 = []) := by
  rcases firstSegment_rest p with h1 | ⟨q, h1⟩
  · exact absurd h1 h
  · rw [h1]
    by_cases hq : q = []
    · subst hq
      intro hh
      have : (firstSegment ['/']).1 = ['/'] := by decide
      rw [this] at hh
      exact absurd hh.1 (by decide)
    · rw [firstSegment_slash q hq]
      intro hh
      apply hq
      have := List.takeWhile_append_dropWhile (fun c => decide (c ≠ '/')) q
      have h2 : List.takeWhile (fun c => decide (c ≠ '/')) q = [] :=
        (pathUnescape_eq_nil _).1 hh.1
      have h3 : List.dropWhile (fun c => decide (c ≠ '/')) q = [] := hh.2
      rw [← this, h2, h3]
      rfl

theorem matchPath_leaf (pat : pattern) (h : Handler) (p : Str) (m : List Str) :
    matchPath (some (leaf pat h)) p m = if p = [] then some (leaf pat h, m) else none := by
  by_cases hp : p = []
  · subst hp; rw [matchPath_nil]; simp [leaf, routingNode.pattern]
  · rw [matchPath_cons _ _ _ hp, if_neg hp]
    simp [leaf, findChild, routingNode.find, routingNode.children, routingNode.emptyChild,
      routingNode.multiChild, matchPath_none]

theorem matchSegments_cons (seg : segment) (segs : List segment) (p : Str) :
    matchSegments (seg :: segs) p =
      if p = [] then none
      else if seg.multi then some (if seg.s ≠ [] then [pathUnescape (p.drop 1)] else [])
      else if seg.wild then
        if (firstSegment p).1 = "/".toList then none
        else (matchSegments segs (firstSegment p).2).map (fun m => (firstSegment p).1 :: m)
      else if (firstSegment p).1 = seg.s then matchSegments segs (firstSegment p).2
      else none := by
  rw [matchSegments]

theorem matchSegments_nil (p : Str) :
    matchSegments [] p = if p = [] then some [] else none := by
  rw [matchSegments]

theorem ms_static (p : Str) :
    matchSegments patStatic.segments p =
      if p = [] then none
      else if (firstSegment p).1 = "static".toList then
        if (firstSegment p).2 = [] then none else some []
      else none := by
  simp [matchSegments_cons, patStatic]

theorem ms_home (p : Str) :
    matchSegments patHome.segments p =
      if p = [] then none
      else if (firstSegment p).1 = "/".toList then
        if (firstSegment p).2 = [] then some [] else none
      else none := by
  simp [matchSegments_cons, matchSegments_nil, patHome]

theorem ms_create (p : Str) :
    matchSegments patCreate.segments p =
      if p = [] then none
      else if (firstSegment p).1 = "snippet".toList then
        if (firstSegment p).2 = [] then none
        else if (firstSegment (firstSegment p).2).1 = "create".toList then
          if (firstSegment (firstSegment p).2).2 = [] then some [] else none
        else none
      else none := by
  simp [matchSegments_cons, matchSegments_nil, patCreate]

theorem ms_createPost (p : Str) :
    matchSegments patCreatePost.segments p = matchSegments patCreate.segments p := rfl

theorem ms_view (p : Str) :
    matchSegments patView.segments p =
      if p = [] then none
      else if (firstSegment p).1 = "snippet".toList then
        if (firstSegment p).2 = [] then none
        else if (firstSegment (firstSegment p).2).1 = "view".toList then
          if (firstSegment (firstSegment p).2).2 = [] then none
          else if (firstSegment (firstSegment (firstSegment p).2).2).1 = "/".toList then none
          else if (firstSegment (firstSegment (firstSegment p).2).2).2 = [] then
            some [(firstSegment (firstSegment (firstSegment p).2).2).1]
          else none
        else none
      else none := by
  simp [matchSegments_cons, matchSegments_nil, patView]

theorem mp_static (r : Str) (m : List Str) :
    matchPath (some (routingNode.mk none none [] (some (leaf patStatic staticHandler)) none)) r m =
      if r = [] then none else some (leaf patStatic staticHandler, m) := by
  by_cases hr : r = []
  · subst hr; rw [matchPath_nil]; rfl
  · rw [matchPath_cons _ _ _ hr, if_neg hr]
    simp [findChild, routingNode.find, routingNode.children, routingNode.emptyChild,
      routingNode.multiChild, matchPath_none, leaf, routingNode.pattern, patStatic,
      pattern.lastSegment]

theorem mp_view (r : Str) (m : List Str) :
    matchPath (some (routingNode.mk none none [] none (some (leaf patView Handler.snippetView)))) r m =
      if r = [] then none
      else if (firstSegment r).1 = [] ∧ (firstSegment r).2 = [] then
        some (leaf patView Handler.snippetView, m)
      else if (firstSegment r).1 = "/".toList then none
      else if (firstSegment r).2 = [] then
        some (leaf patView Handler.snippetView, m ++ [(firstSegment r).1])
      else none := by
  by_cases hr : r = []
  · subst hr; rw [matchPath_nil]; rfl
  · rw [matchPath_cons _ _ _ hr, if_neg hr]
    by_cases h1 : (firstSegment r).1 = []
    · by_cases h2 : (firstSegment r).2 = []
      · simp [h1, h2, findChild, routingNode.emptyChild, matchPath_leaf]
      · simp [h1, h2, findChild, routingNode.emptyChild, matchPath_leaf, routingNode.multiChild]
    · by_cases h2 : (firstSegment r).2 = []
      · by_cases h3 : (firstSegment r).1 = ['/']
        · simp [h1, h2, h3, findChild, routingNode.emptyChild, matchPath_leaf,
            routingNode.multiChild, routingNode.find, routingNode.children, matchPath_none]
        · simp [h1, h2, h3, findChild, routingNode.emptyChild, matchPath_leaf,
            routingNode.multiChild, routingNode.find, routingNode.children, matchPath_none]
      · simp [h1, h2, findChild, routingNode.emptyChild, matchPath_leaf,
            routingNode.multiChild, routingNode.find, routingNode.children, matchPath_none]

theorem mp_snippet (r : Str) :
    matchPath (some (routingNode.mk none none
        [("create".toList, leaf patCreate Handler.snippetCreate),
         ("view".toList, routingNode.mk none none [] none (some (leaf patView Handler.snippetView)))]
        none none)) r [] =
      if r = [] then none
      else if (firstSegment r).1 = "view".toList then
        matchPath (some (routingNode.mk none none [] none
          (some (leaf patView Handler.snippetView)))) (firstSegment r).2 []
      else if (firstSegment r).1 = "create".toList then
        if (firstSegment r).2 = [] then some (leaf patCreate Handler.snippetCreate, []) else none
      else none := by
  by_cases hr : r = []
  · subst hr; rw [matchPath_nil]; rfl
  · rw [matchPath_cons _ _ _ hr, if_neg hr]
    by_cases h1 : (firstSegment r).1 = ['v', 'i', 'e', 'w']
    · simp [h1, findChild, routingNode.emptyChild, matchPath_leaf,
        routingNode.multiChild, routingNode.find, routingNode.children, matchPath_none]
      split <;> simp_all
    · by_cases h2 : (firstSegment r).1 = ['c', 'r', 'e', 'a', 't', 'e']
      · by_cases h3 : (firstSegment r).2 = []
        · simp [h2, h3, findChild, routingNode.emptyChild, matchPath_leaf,
            routingNode.multiChild, routingNode.find, routingNode.children, matchPath_none]
        · simp [h2, h3, findChild, routingNode.emptyChild, matchPath_leaf,
            routingNode.multiChild, routingNode.find, routingNode.children, matchPath_none]
      · by_cases h0 : (firstSegment r).1 = []
        · simp [h0, findChild, routingNode.emptyChild, matchPath_leaf,
            routingNode.multiChild, routingNode.find, routingNode.children, matchPath_none]
        · have h1' : ¬ (['v', 'i', 'e', 'w'] = (firstSegment r).1) := fun e => h1 e.symm
          have h2' : ¬ (['c', 'r', 'e', 'a', 't', 'e'] = (firstSegment r).1) := fun e => h2 e.symm
          simp [h0, h1, h2, h1', h2', findChild, routingNode.emptyChild, matchPath_leaf,
            routingNode.multiChild, routingNode.find, routingNode.children, matchPath_none]

theorem mp_get (p : Str) :
    matchPath (some getNode) p [] =
      if p = [] then none
      else if (firstSegment p).1 = "static".toList then
        matchPath (some (routingNode.mk none none [] (some (leaf patStatic staticHandler)) none))
          (firstSegment p).2 []
      else if (firstSegment p).1 = "/".toList then
        if (firstSegment p).2 = [] then some (leaf patHome Handler.home, []) else none
      else if (firstSegment p).1 = "snippet".toList then
        matchPath (some (routingNode.mk none none
          [("create".toList, leaf patCreate Handler.snippetCreate),
           ("view".toList, routingNode.mk none none [] none (some (leaf patView Handler.snippetView)))]
          none none)) (firstSegment p).2 []
      else none := by
  by_cases hp : p = []
  · subst hp; rw [matchPath_nil]; rfl
  · rw [matchPath_cons _ _ _ hp, if_neg hp]
    by_cases h1 : (firstSegment p).1 = ['s', 't', 'a', 't', 'i', 'c']
    · simp [h1, getNode, findChild, routingNode.emptyChild, matchPath_leaf,
        routingNode.multiChild, routingNode.find, routingNode.children, matchPath_none]
      split <;> simp_all
    · by_cases h2 : (firstSegment p).1 = ['/']
      · by_cases h3 : (firstSegment p).2 = []
        · simp [h2, h3, getNode, findChild, routingNode.emptyChild, matchPath_leaf,
            routingNode.multiChild, routingNode.find, routingNode.children, matchPath_none]
        · simp [h2, h3, getNode, findChild, routingNode.emptyChild, matchPath_leaf,
            routingNode.multiChild, routingNode.find, routingNode.children, matchPath_none]
      · by_cases h4 : (firstSegment p).1 = ['s', 'n', 'i', 'p', 'p', 'e', 't']
        · simp [h4, getNode, findChild, routingNode.emptyChild, matchPath_leaf,
            routingNode.multiChild, routingNode.find, routingNode.children, matchPath_none]
          split <;> simp_all
        · by_cases h0 : (firstSegment p).1 = []
          · simp [h0, getNode, findChild, routingNode.emptyChild, matchPath_leaf,
              routingNode.multiChild, routingNode.find, routingNode.children, matchPath_none]
          · have h1' : ¬ (['s', 't', 'a', 't', 'i', 'c'] = (firstSegment p).1) := fun e => h1 e.symm
            have h2' : ¬ (['/'] = (firstSegment p).1) := fun e => h2 e.symm
            have h4' : ¬ (['s', 'n', 'i', 'p', 'p', 'e', 't'] = (firstSegment p).1) :=
              fun e => h4 e.symm
            simp [h0, h1, h2, h4, h1', h2', h4', getNode, findChild, routingNode.emptyChild,
              matchPath_leaf, routingNode.multiChild, routingNode.find, routingNode.children,
              matchPath_none]

theorem mp_post (p : Str) :
    matchPath (some postNode) p [] =
      if p = [] then none
      else if (firstSegment p).1 = "snippet".toList then
        if (firstSegment p).2 = [] then none
        else if (firstSegment (firstSegment p).2).1 = "create".toList then
          if (firstSegment (firstSegment p).2).2 = [] then
            some (leaf patCreatePost Handler.snippetCreatePost, [])
          else none
        else none
      else none := by
  have inner : ∀ r : Str, matchPath (some (routingNode.mk none none
        [("create".toList, leaf patCreatePost Handler.snippetCreatePost)] none none)) r [] =
      if r = [] then none
      else if (firstSegment r).1 = "create".toList then
        if (firstSegment r).2 = [] then
          some (leaf patCreatePost Handler.snippetCreatePost, [])
        else none
      else none := by
    intro r
    by_cases hr : r = []
    · subst hr; rw [matchPath_nil]; rfl
    · rw [matchPath_cons _ _ _ hr, if_neg hr]
      by_cases h2 : (firstSegment r).1 = ['c', 'r', 'e', 'a', 't', 'e']
      · by_cases h3 : (firstSegment r).2 = []
        · simp [h2, h3, findChild, routingNode.emptyChild, matchPath_leaf,
            routingNode.multiChild, routingNode.find, routingNode.children, matchPath_none]
        · simp [h2, h3, findChild, routingNode.emptyChild, matchPath_leaf,
            routingNode.multiChild, routingNode.find, routingNode.children, matchPath_none]
      · by_cases h0 : (firstSegment r).1 = []
        · simp [h0, findChild, routingNode.emptyChild, matchPath_leaf,
            routingNode.multiChild, routingNode.find, routingNode.children, matchPath_none]
        · have h2' : ¬ (['c', 'r', 'e', 'a', 't', 'e'] = (firstSegment r).1) := fun e => h2 e.symm
          simp [h0, h2, h2', findChild, routingNode.emptyChild, matchPath_leaf,
            routingNode.multiChild, routingNode.find, routingNode.children, matchPath_none]
  by_cases hp : p = []
  · subst hp; rw [matchPath_nil]; rfl
  · rw [matchPath_cons _ _ _ hp, if_neg hp]
    by_cases h4 : (firstSegment p).1 = ['s', 'n', 'i', 'p', 'p', 'e', 't']
    · have := inner (firstSegment p).2
      simp only [String.toList] at this
      simp only [postNode, findChild, routingNode.find, routingNode.children, h4]
      simp [this, routingNode.emptyChild, matchPath_none, routingNode.multiChild]
      split_ifs <;> rfl
    · by_cases h0 : (firstSegment p).1 = []
      · simp [h0, postNode, findChild, routingNode.emptyChild, matchPath_leaf,
          routingNode.multiChild, routingNode.find, routingNode.children, matchPath_none]
      · have h4' : ¬ (['s', 'n', 'i', 'p', 'p', 'e', 't'] = (firstSegment p).1) :=
          fun e => h4 e.symm
        simp [h0, h4, h4', postNode, findChild, routingNode.emptyChild,
          matchPath_leaf, routingNode.multiChild, routingNode.find, routingNode.children,
          matchPath_none]

theorem match_routeTree (host method p : Str) :
    routeTree.«match» host method p =
      if method = "GET".toList ∨ method = "HEAD".toList then matchPath (some getNode) p []
      else if method = "POST".toList then matchPath (some postNode) p []
      else none := by
  have hroot : (if host ≠ [] then matchMethodAndPath (routeTree.findChild host) method p
      else none) = none := by
    by_cases hh : host = []
    · simp [hh]
    · simp [hh, routeTree, findChild, routingNode.find, routingNode.children, matchMethodAndPath]
  unfold routingNode.«match»
  rw [hroot]
  simp only [routeTree, routingNode.emptyChild, matchMethodAndPath]
  by_cases h1 : method = ['G', 'E', 'T']
  · subst h1
    simp [findChild, routingNode.find, routingNode.children, routingNode.emptyChild,
      matchPath_none]
    split <;> simp_all
  · by_cases h2 : method = ['H', 'E', 'A', 'D']
    · subst h2
      simp [findChild, routingNode.find, routingNode.children, routingNode.emptyChild,
        matchPath_none]
      split <;> simp_all
    · by_cases h3 : method = ['P', 'O', 'S', 'T']
      · subst h3
        simp [findChild, routingNode.find, routingNode.children, routingNode.emptyChild,
          matchPath_none]
        split <;> simp_all
      · by_cases h0 : method = []
        · subst h0
          simp [findChild, routingNode.find, routingNode.children, routingNode.emptyChild,
            matchPath_none]
        · have h1' : ¬ (['G', 'E', 'T'] = method) := fun e => h1 e.symm
          have h3' : ¬ (['P', 'O', 'S', 'T'] = method) := fun e => h3 e.symm
          simp [h0, h1, h2, h3, h1', h3', findChild, routingNode.find, routingNode.children,
            routingNode.emptyChild, matchPath_none]

theorem firstMatch_routes (method p : Str) :
    firstMatch routes method p =
      if method = "GET".toList ∨ method = "HEAD".toList then
        if (matchSegments patStatic.segments p).isSome then some (patStatic, staticHandler)
        else if (matchSegments patHome.segments p).isSome then some (patHome, Handler.home)
        else if (matchSegments patView.segments p).isSome then some (patView, Handler.snippetView)
        else if (matchSegments patCreate.segments p).isSome then
          some (patCreate, Handler.snippetCreate)
        else none
      else if method = "POST".toList then
        if (matchSegments patCreate.segments p).isSome then
          some (patCreatePost, Handler.snippetCreatePost)
        else none
      else none := by
  have hm : ∀ e : Route, e.accepts method p =
      (methodMatches e.1.method method && (matchSegments e.1.segments p).isSome) := fun _ => rfl
  have hG : methodMatches "GET".toList method =
      decide (method = "GET".toList ∨ method = "HEAD".toList) := by
    by_cases h1 : method = ['G', 'E', 'T']
    · subst h1; rfl
    · by_cases h2 : method = ['H', 'E', 'A', 'D']
      · subst h2; rfl
      · have h1' : ¬ (['G', 'E', 'T'] = method) := fun e => h1 e.symm
        simp [methodMatches, h1, h2, h1']
  have hP : methodMatches "POST".toList method = decide (method = "POST".toList) := by
    by_cases h3 : method = ['P', 'O', 'S', 'T']
    · subst h3; rfl
    · have h3' : ¬ (['P', 'O', 'S', 'T'] = method) := fun e => h3 e.symm
      simp [methodMatches, h3, h3']
  have e1 : patStatic.method = "GET".toList := rfl
  have e2 : patHome.method = "GET".toList := rfl
  have e3 : patView.method = "GET".toList := rfl
  have e4 : patCreate.method = "GET".toList := rfl
  have e5 : patCreatePost.method = "POST".toList := rfl
  have e6 : patCreatePost.segments = patCreate.segments := rfl
  simp only [firstMatch, routes, List.find?, hm, e1, e2, e3, e4, e5, e6, hG, hP]
  by_cases hg : method = "GET".toList ∨ method = "HEAD".toList
  · have hp : ¬ method = "POST".toList := by
      rcases hg with h | h <;> (subst h; decide)
    simp only [hg, hp, decide_True, decide_False, Bool.true_and, Bool.false_and, if_true]
    cases (matchSegments patStatic.segments p).isSome <;>
    cases (matchSegments patHome.segments p).isSome <;>
    cases (matchSegments patView.segments p).isSome <;>
    cases (matchSegments patCreate.segments p).isSome <;> rfl
  · simp only [hg, decide_False, Bool.false_and, if_false]
    by_cases hp : method = "POST".toList
    · simp only [hp, decide_True, Bool.true_and, if_true]
      cases (matchSegments patCreate.segments p).isSome <;> rfl
    · simp only [hp, decide_False, Bool.false_and, if_false]

theorem mp_get_entries (p : Str) :
    matchPath (some getNode) p [] =
      if (matchSegments patStatic.segments p).isSome then
        some (Route.hit (patStatic, staticHandler) p)
      else if (matchSegments patHome.segments p).isSome then
        some (Route.hit (patHome, Handler.home) p)
      else if (matchSegments patView.segments p).isSome then
        some (Route.hit (patView, Handler.snippetView) p)
      else if (matchSegments patCreate.segments p).isSome then
        some (Route.hit (patCreate, Handler.snippetCreate) p)
      else none := by
  have hnext := firstSegment_next (firstSegment p).2
  rw [mp_get, mp_static, mp_snippet, mp_view]
  simp only [Route.hit, Route.captures, ms_static, ms_home, ms_view, ms_create]
  simp only [String.toList]
  by_cases hp : p = []
  · simp [hp]
  · simp only [hp, if_false]
    by_cases h1 : (firstSegment p).1 = ['s', 't', 'a', 't', 'i', 'c']
    · by_cases h2 : (firstSegment p).2 = []
      · simp [h1, h2]
      · simp [h1, h2]
    · simp only [h1, if_false]
      by_cases h3 : (firstSegment p).1 = ['/']
      · by_cases h2 : (firstSegment p).2 = []
        · simp [h3, h2]
        · simp [h3, h2]
      · simp only [h3, if_false]
        by_cases h4 : (firstSegment p).1 = ['s', 'n', 'i', 'p', 'p', 'e', 't']
        · simp only [h4, if_true]
          by_cases h2 : (firstSegment p).2 = []
          · simp [h2]
          · simp only [h2, if_false]
            by_cases h5 : (firstSegment (firstSegment p).2).1 = ['v', 'i', 'e', 'w']
            · simp only [h5, if_true]
              by_cases h6 : (firstSegment (firstSegment p).2).2 = []
              · simp [h6]
              · have hq := hnext h6
                simp only [h6, if_false]
                by_cases h7 : (firstSegment (firstSegment (firstSegment p).2).2).2 = []
                · by_cases h8 : (firstSegment (firstSegment (firstSegment p).2).2).1 = ['/']
                  · simp [h7, h8]
                  · have h9 : ¬ (firstSegment (firstSegment (firstSegment p).2).2).1 = [] :=
                      fun e => hq ⟨e, h7⟩
                    simp [h7, h8, h9]
                · simp [h7]
            · simp only [h5, if_false]
              by_cases h10 : (firstSegment (firstSegment p).2).1 = ['c', 'r', 'e', 'a', 't', 'e']
              · by_cases h6 : (firstSegment (firstSegment p).2).2 = []
                · simp [h10, h6]
                · simp [h10, h6]
              · simp [h10]
        · simp [h4]

theorem mp_post_entries (p : Str) :
    matchPath (some postNode) p [] =
      if (matchSegments patCreate.segments p).isSome then
        some (Route.hit (patCreatePost, Handler.snippetCreatePost) p)
      else none := by
  rw [mp_post]
  simp only [Route.hit, Route.captures, ms_createPost, ms_create]
  split_ifs <;> simp_all

/-- The routing tree of `main` finds exactly the first matching route entry. -/
theorem match_routes (host method p : Str) :
    routeTree.«match» host method p = (firstMatch routes method p).map (fun e => e.hit p) := by
  rw [match_routeTree, firstMatch_routes, mp_get_entries, mp_post_entries]
  split_ifs <;> rfl



/-! ### Shapes of paths -/

theorem char_of_toNat (c : Char) (n : Nat) (h : c.toNat = n) : c = Char.ofNat n := by
  rw [← h, Char.ofNat_toNat]

theorem char_le_iff (a b : Char) : a ≤ b ↔ a.toNat ≤ b.toNat := by
  rw [Char.le_def]
  exact Iff.rfl

/-- The hexadecimal digits. -/
theorem ishex_mem (c : Char) (h : ishex c = true) : c ∈ "0123456789abcdefABCDEF".toList := by
  unfold ishex at h
  simp only [Bool.or_eq_true, Bool.and_eq_true, decide_eq_true_eq, char_le_iff] at h
  have e0 : ('0' : Char).toNat = 48 := rfl
  have e9 : ('9' : Char).toNat = 57 := rfl
  have ea : ('a' : Char).toNat = 97 := rfl
  have ef : ('f' : Char).toNat = 102 := rfl
  have eA : ('A' : Char).toNat = 65 := rfl
  have eF : ('F' : Char).toNat = 70 := rfl
  rw [e0, e9, ea, ef, eA, eF] at h
  have hn : c = Char.ofNat c.toNat := char_of_toNat c _ rfl
  generalize c.toNat = n at h hn
  subst hn
  have : n = 48 ∨ n = 49 ∨ n = 50 ∨ n = 51 ∨ n = 52 ∨ n = 53 ∨ n = 54 ∨ n = 55 ∨ n = 56 ∨
      n = 57 ∨ n = 97 ∨ n = 98 ∨ n = 99 ∨ n = 100 ∨ n = 101 ∨ n = 102 ∨
      n = 65 ∨ n = 66 ∨ n = 67 ∨ n = 68 ∨ n = 69 ∨ n = 70 := by omega
  rcases this with h | h | h | h | h | h | h | h | h | h | h | h | h | h | h | h | h | h | h |
    h | h | h <;> (subst h; decide)

/-- The one escape that decodes to a slash is `%2F`, in either case of the letter. -/
theorem hex_slash : ∀ x ∈ "0123456789abcdefABCDEF".toList,
    ∀ y ∈ "0123456789abcdefABCDEF".toList,
    Char.ofNat (unhex x * 16 + unhex y) = '/' → x = '2' ∧ (y = 'F' ∨ y = 'f') := by
  decide

/-- A segment without a slash decodes to a slash only when it is `%2F` or `%2f`. -/
theorem pathUnescape_slash (a : Str) (hs : '/' ∉ a) (h : pathUnescape a = "/".toList) :
    a = "%2F".toList ∨ a = "%2f".toList := by
  unfold pathUnescape at h
  cases hu : unescape a with
  | none =>
    rw [hu] at h
    have h' : a = ['/'] := h
    rw [h'] at hs
    exact absurd (List.mem_cons_self _ _) hs
  | some t =>
    rw [hu] at h
    have ht : t = ['/'] := h
    subst ht
    rcases a with _ | ⟨c, cs⟩
    · simp [unescape] at hu
    · by_cases hc : c = '%'
      · subst hc
        rcases cs with _ | ⟨x, _ | ⟨y, rest⟩⟩
        · simp [unescape] at hu
        · simp [unescape] at hu
        · rw [unescape_percent] at hu
          split_ifs at hu with hxy
          cases hr : unescape rest with
          | none => rw [hr] at hu; simp at hu
          | some t' =>
            rw [hr] at hu
            simp only [Option.map, Option.some.injEq, List.cons.injEq] at hu
            obtain ⟨h1, h2⟩ := hu
            subst h2
            have hrest := unescape_eq_nil rest hr
            subst hrest
            obtain ⟨hx, hy⟩ := hex_slash x (ishex_mem x hxy.1) y (ishex_mem y hxy.2) h1
            subst hx
            rcases hy with hy | hy
            · left; rw [hy]; rfl
            · right; rw [hy]; rfl
      · rw [unescape_cons c cs hc] at hu
        cases hr : unescape cs with
        | none => rw [hr] at hu; simp at hu
        | some t' =>
          rw [hr] at hu
          simp only [Option.map, Option.some.injEq, List.cons.injEq] at hu
          exact absurd (by rw [hu.1]; exact List.mem_cons_self _ _) hs

/-- A path that begins with a slash is the slash, a first segment as written (which the
first segment decodes) and the rest. -/
theorem firstSegment_split (p : Str) (h : p.head? = some '/') (hp : p ≠ "/".toList) :
    ∃ a, '/' ∉ a ∧ (firstSegment p).1 = pathUnescape a ∧
      p = '/' :: a ++ (firstSegment p).2 := by
  rcases p with _ | ⟨c, q⟩
  · simp at h
  · have hc : c = '/' := by simpa using h
    subst hc
    refine ⟨q.takeWhile (fun c => c ≠ '/'), ?_, ?_, ?_⟩
    · intro hm
      have := List.mem_takeWhile_imp hm
      simp at this
    · unfold firstSegment
      rw [if_neg hp]
      rfl
    · unfold firstSegment
      rw [if_neg hp]
      simp

/-- The rest after the first segment begins with a slash, so the split applies again. -/
theorem firstSegment_split_rest (p : Str) (h : (firstSegment p).2 ≠ [])
    (hp : (firstSegment p).2 ≠ "/".toList) :
    ∃ a, '/' ∉ a ∧ (firstSegment (firstSegment p).2).1 = pathUnescape a ∧
      (firstSegment p).2 = '/' :: a ++ (firstSegment (firstSegment p).2).2 := by
  apply firstSegment_split _ _ hp
  rcases firstSegment_rest p with h1 | ⟨q, h1⟩
  · exact absurd h1 h
  · rw [h1]; rfl

theorem takeWhile_of_not_mem (s r : Str) (hs : '/' ∉ s) (hr : r = [] ∨ r.head? = some '/') :
    (s ++ r).takeWhile (fun c => c ≠ '/') = s ∧ (s ++ r).dropWhile (fun c => c ≠ '/') = r := by
  induction s with
  | nil =>
    rcases hr with hr | hr
    · subst hr; simp
    · rcases r with _ | ⟨c, r'⟩
      · simp
      · have hc : c = '/' := by simpa using hr
        subst hc
        simp
  | cons a t ih =>
    have ha : a ≠ '/' := fun e => hs (by rw [e]; exact List.mem_cons_self _ _)
    have ht : '/' ∉ t := fun e => hs (List.mem_cons_of_mem _ e)
    have := ih ht
    have hd : decide (a ≠ '/') = true := by simpa using ha
    simp only [List.cons_append, List.takeWhile_cons, List.dropWhile_cons, hd, if_true, this.1,
      this.2, and_self]

/-- The first segment of `/s` followed by `r`, where `s` has no slash and `r` is empty or
begins with one. -/
theorem firstSegment_append (s r : Str) (hs : '/' ∉ s) (hr : r = [] ∨ r.head? = some '/')
    (hne : s ++ r ≠ []) : firstSegment ('/' :: (s ++ r)) = (pathUnescape s, r) := by
  rw [firstSegment_slash _ hne]
  have := takeWhile_of_not_mem s r hs hr
  rw [this.1, this.2]

/-- The root pattern matches `/` and the one-segment paths whose segment decodes to a
slash. -/
theorem ms_home_iff (p : Str) (hh : p.head? = some '/') :
    (matchSegments patHome.segments p).isSome ↔
      p = "/".toList ∨ p = "/%2F".toList ∨ p = "/%2f".toList := by
  constructor
  · intro h
    rw [ms_home] at h
    by_cases hp : p = []
    · simp [hp] at h
    · rw [if_neg hp] at h
      by_cases h1 : (firstSegment p).1 = "/".toList
      · rw [if_pos h1] at h
        by_cases h2 : (firstSegment p).2 = []
        · by_cases hroot : p = "/".toList
          · exact Or.inl hroot
          · right
            obtain ⟨a, ha, hfa, hpa⟩ := firstSegment_split p hh hroot
            rw [h2, List.append_nil] at hpa
            rw [h1] at hfa
            rcases pathUnescape_slash a ha hfa.symm with e | e
            · left; rw [hpa, e]; rfl
            · right; rw [hpa, e]; rfl
        · rw [if_neg h2] at h; simp at h
      · rw [if_neg h1] at h; simp at h
  · intro h
    rcases h with h | h | h <;> (subst h; decide)

/-- The static pattern matches the paths whose first segment decodes to `static` and is
followed by a slash. -/
theorem ms_static_iff (p : Str) (hh : p.head? = some '/') :
    (matchSegments patStatic.segments p).isSome ↔
      ∃ a q, p = '/' :: a ++ '/' :: q ∧ '/' ∉ a ∧ pathUnescape a = "static".toList := by
  constructor
  · intro h
    rw [ms_static] at h
    by_cases hp : p = []
    · simp [hp] at h
    · rw [if_neg hp] at h
      by_cases h1 : (firstSegment p).1 = "static".toList
      · rw [if_pos h1] at h
        by_cases h2 : (firstSegment p).2 = []
        · simp [h2] at h
        · have hne : p ≠ "/".toList := by
            intro e; subst e; revert h1; decide
          obtain ⟨a, ha, hfa, hpa⟩ := firstSegment_split p hh hne
          rcases firstSegment_rest p with h3 | ⟨q, h3⟩
          · exact absurd h3 h2
          · rw [h3] at hpa
            exact ⟨a, q, hpa, ha, by rw [← hfa, h1]⟩
      · rw [if_neg h1] at h; simp at h
  · rintro ⟨a, q, hq, ha, hu⟩
    have : firstSegment p = ("static".toList, '/' :: q) := by
      rw [hq, ← hu]
      exact firstSegment_append a ('/' :: q) ha (Or.inr rfl) (by simp)
    rw [ms_static, this]
    have hp : p ≠ [] := by rw [hq]; simp
    simp [hp]

/-- The view pattern matches the paths of three segments of which the first decodes to
`snippet`, the second to `view`, and the third is not empty and does not decode to a
slash; the value of the wildcard is the third segment, decoded. -/
theorem ms_view_iff (p : Str) (hh : p.head? = some '/') (m : List Str) :
    matchSegments patView.segments p = some m ↔
      ∃ a b s, p = '/' :: a ++ '/' :: b ++ '/' :: s ∧ '/' ∉ a ∧ '/' ∉ b ∧ '/' ∉ s ∧
        pathUnescape a = "snippet".toList ∧ pathUnescape b = "view".toList ∧ s ≠ [] ∧
        pathUnescape s ≠ "/".toList ∧ m = [pathUnescape s] := by
  constructor
  · intro h
    rw [ms_view] at h
    by_cases hp : p = []
    · simp [hp] at h
    · rw [if_neg hp] at h
      by_cases h1 : (firstSegment p).1 = "snippet".toList
      · rw [if_pos h1] at h
        by_cases h2 : (firstSegment p).2 = []
        · simp [h2] at h
        · rw [if_neg h2] at h
          by_cases h3 : (firstSegment (firstSegment p).2).1 = "view".toList
          · rw [if_pos h3] at h
            by_cases h4 : (firstSegment (firstSegment p).2).2 = []
            · simp [h4] at h
            · rw [if_neg h4] at h
              by_cases h5 : (firstSegment (firstSegment (firstSegment p).2).2).1 = "/".toList
              · simp [h5] at h
              · rw [if_neg h5] at h
                by_cases h6 : (firstSegment (firstSegment (firstSegment p).2).2).2 = []
                · rw [if_pos h6] at h
                  have hm : m = [(firstSegment (firstSegment (firstSegment p).2).2).1] := by
                    simpa using h.symm
                  have hne : p ≠ "/".toList := by
                    intro e; subst e; revert h1; decide
                  have hne1 : (firstSegment p).2 ≠ "/".toList := by
                    intro e; rw [e] at h3; revert h3; decide
                  have hne2 : (firstSegment (firstSegment p).2).2 ≠ "/".toList := by
                    intro e; rw [e] at h5; revert h5; decide
                  obtain ⟨a, ha, hfa, e0⟩ := firstSegment_split p hh hne
                  obtain ⟨b, hb, hfb, e1⟩ := firstSegment_split_rest p h2 hne1
                  obtain ⟨s, hs, hfs, e2⟩ := firstSegment_split_rest (firstSegment p).2 h4 hne2
                  have hnn := firstSegment_next (firstSegment p).2 h4
                  rw [h6, List.append_nil] at e2
                  rw [e2] at e1
                  rw [e1] at e0
                  have hs0 : s ≠ [] := by
                    intro e
                    apply hnn
                    refine ⟨?_, h6⟩
                    rw [hfs, e]
                    rfl
                  refine ⟨a, b, s, ?_, ha, hb, hs, ?_, ?_, hs0, ?_, ?_⟩
                  · rw [e0]; simp
                  · rw [← hfa, h1]
                  · rw [← hfb, h3]
                  · rw [← hfs]; exact h5
                  · rw [← hfs]; exact hm
                · simp [h6] at h
          · rw [if_neg h3] at h; simp at h
      · rw [if_neg h1] at h; simp at h
  · rintro ⟨a, b, s, hp, ha, hb, hns, hua, hub, hs, hus, hm⟩
    have f1 : firstSegment p = ("snippet".toList, '/' :: b ++ '/' :: s) := by
      rw [hp, ← hua]
      have := firstSegment_append a ('/' :: b ++ '/' :: s) ha (Or.inr rfl) (by simp)
      simpa using this
    have f2 : firstSegment ('/' :: b ++ '/' :: s) = ("view".toList, '/' :: s) := by
      rw [← hub]
      exact firstSegment_append b ('/' :: s) hb (Or.inr rfl) (by simp)
    have f3 : firstSegment ('/' :: s) = (pathUnescape s, []) := by
      have := firstSegment_append s [] hns (Or.inl rfl) (by simpa using hs)
      simpa using this
    have hpn : p ≠ [] := by rw [hp]; simp
    have hs1 : pathUnescape s ≠ ['/'] := hus
    rw [ms_view, f1]
    simp only [f2, f3]
    simp [hpn, hs1, hm]



theorem Clean_head (p : Str) : (Clean p).head? = some '/' := by
  unfold Clean
  cases cleanElems (splitSlash p) [] with
  | nil => rfl
  | cons e es => rfl

theorem cleanPath_head (p : Str) : (cleanPath p).head? = some '/' := by
  unfold cleanPath
  by_cases hp : p = []
  · simp [hp]
  · rw [if_neg hp]
    simp only
    have hq : (if p.head? ≠ some '/' then '/' :: p else p).head? = some '/' := by
      by_cases h : p.head? = some '/'
      · simp [h]
      · simp [h]
    generalize (if p.head? ≠ some '/' then '/' :: p else p) = q at *
    have hc := Clean_head q
    split_ifs
    · exact hq
    · rcases hn : Clean q with _ | ⟨c, t⟩
      · rw [hn] at hc; simp at hc
      · rw [hn] at hc; simpa using hc
    · exact hc

/-- A path in canonical form begins with a slash. -/
theorem head_of_clean (p : Str) (h : cleanPath p = p) : p.head? = some '/' := by
  rw [← h]; exact cleanPath_head p



theorem mux_match (host method p : Str) :
    mux.tree.«match» host method p = (firstMatch routes method p).map (fun e => e.hit p) := by
  rw [mux_tree]; exact match_routes host method p

theorem matchOrRedirect_fst (m : ServeMux) (host method path : Str) (b : Bool) (u : Str)
    (h : (m.matchOrRedirect host method path b u).2 = none) :
    (m.matchOrRedirect host method path b u).1 = m.tree.«match» host method path := by
  unfold ServeMux.matchOrRedirect at h ⊢
  simp only at h ⊢
  split_ifs at h ⊢ <;> rfl

theorem matchOrRedirect_false (m : ServeMux) (host method path u : Str) :
    m.matchOrRedirect host method path false u = (m.tree.«match» host method path, none) := by
  unfold ServeMux.matchOrRedirect
  simp

theorem found_hit (m : ServeMux) (e : Route) (host path p : Str) :
    m.found (some (e.hit p)) host path = e.dispatch p := rfl

theorem found_none_ne (m : ServeMux) (host path : Str) (h : Handler) (pat : pattern)
    (ms : List Str) : m.found none host path ≠ Dispatch.handler h pat ms := by
  unfold ServeMux.found
  simp only
  split_ifs <;> simp

theorem firstMatch_method (method p : Str) (e : Route)
    (h : firstMatch routes method p = some e) :
    method = "GET".toList ∨ method = "HEAD".toList ∨ method = "POST".toList := by
  rw [firstMatch_routes] at h
  by_cases hg : method = "GET".toList ∨ method = "HEAD".toList
  · rcases hg with hg | hg
    · exact Or.inl hg
    · exact Or.inr (Or.inl hg)
  · rw [if_neg hg] at h
    by_cases hp : method = "POST".toList
    · exact Or.inr (Or.inr hp)
    · rw [if_neg hp] at h; simp at h

/-- A request is served by a registered handler only if its path is in canonical form
and the handler's entry is the first entry of the table that matches it. -/
theorem ServeHTTP_handler (r : Request) (h : Handler) (pat : pattern) (ms : List Str)
    (hd : mux.ServeHTTP r = Dispatch.handler h pat ms) :
    r.RequestURI ≠ "*".toList ∧ cleanPath r.URL.EscapedPath = r.URL.EscapedPath ∧
      firstMatch routes r.Method r.URL.EscapedPath = some (pat, h) ∧
      ms = Route.captures (pat, h) r.URL.EscapedPath := by
  unfold ServeMux.ServeHTTP at hd
  by_cases hu : r.RequestURI = "*".toList
  · rw [if_pos hu] at hd; simp at hd
  · rw [if_neg hu] at hd
    refine ⟨hu, ?_⟩
    unfold ServeMux.findHandler at hd
    by_cases hc : r.Method = "CONNECT".toList
    · rw [if_pos hc] at hd
      exfalso
      cases hr : (mux.matchOrRedirect r.Host r.Method r.URL.EscapedPath true r.URL.Path).2 with
      | some u => rw [hr] at hd; simp at hd
      | none =>
        rw [hr] at hd
        simp only at hd
        rw [matchOrRedirect_false, mux_match] at hd
        cases hf : firstMatch routes r.Method r.URL.EscapedPath with
        | none =>
          rw [hf] at hd
          exact found_none_ne _ _ _ _ _ _ hd
        | some e =>
          have := firstMatch_method _ _ _ hf
          rw [hc] at this
          revert this; decide
    · rw [if_neg hc] at hd
      simp only at hd
      have hfst := matchOrRedirect_fst mux r.Host r.Method (cleanPath r.URL.EscapedPath) true r.URL.Path
      rcases hmr : mux.matchOrRedirect r.Host r.Method (cleanPath r.URL.EscapedPath) true r.URL.Path with ⟨n, u⟩
      rw [hmr] at hd hfst
      cases u with
      | some u => simp at hd
      | none =>
        simp only at hd
        have hn : n = mux.tree.«match» r.Host r.Method (cleanPath r.URL.EscapedPath) := hfst rfl
        by_cases hcl : cleanPath r.URL.EscapedPath = r.URL.EscapedPath
        · refine ⟨hcl, ?_⟩
          rw [if_neg (by simpa using hcl)] at hd
          rw [hn, hcl, mux_match] at hd
          cases hf : firstMatch routes r.Method r.URL.EscapedPath with
          | none =>
            rw [hf] at hd
            exact absurd hd (found_none_ne _ _ _ _ _ _)
          | some e =>
            rw [hf] at hd
            simp only [Option.map] at hd
            rw [found_hit] at hd
            simp only [Route.dispatch, Dispatch.handler.injEq] at hd
            obtain ⟨h1, h2, h3⟩ := hd
            have he : e = (pat, h) := Prod.ext h2 h1
            subst he
            exact ⟨rfl, h3.symm⟩
        · rw [if_pos (by simpa using hcl)] at hd
          simp at hd



theorem firstMatch_mem (method p : Str) (e : Route)
    (h : firstMatch routes method p = some e) : e ∈ routes ∧ e.accepts method p = true := by
  unfold firstMatch at h
  exact ⟨List.mem_of_find?_eq_some h, by simpa using List.find?_some h⟩

theorem exactMatch_hit (e : Route) (he : e ∈ routes) (p q : Str)
    (hne : e ≠ (patStatic, staticHandler)) : exactMatch (some (e.hit q)) p = true := by
  simp only [routes, List.mem_cons, List.mem_singleton, List.not_mem_nil, or_false] at he
  rcases he with he | he | he | he | he
  · exact absurd he hne
  all_goals (subst he; rfl)

theorem firstMatch_static (method q : Str)
    (hm : method = "GET".toList ∨ method = "HEAD".toList) :
    firstMatch routes method ("/static/".toList ++ q) = some (patStatic, staticHandler) := by
  rw [firstMatch_routes, if_pos hm]
  have : (matchSegments patStatic.segments ("/static/".toList ++ q)).isSome = true :=
    (ms_static_iff ("/static/".toList ++ q) rfl).2
      ⟨"static".toList, q, by simp, by decide, by decide⟩
  rw [if_pos this]

theorem matchOrRedirect_of_firstMatch (host method p u : Str) (e : Route)
    (hc : p.head? = some '/') (hf : firstMatch routes method p = some e) :
    mux.matchOrRedirect host method p true u = (some (e.hit p), none) := by
  have hmem := firstMatch_mem method p e hf
  unfold ServeMux.matchOrRedirect
  simp only
  rw [mux_match, mux_match, hf]
  simp only [Option.map]
  by_cases hst : e = (patStatic, staticHandler)
  · subst hst
    have hms : (matchSegments patStatic.segments p).isSome = true := by
      have := hmem.2
      simp only [Route.accepts, Bool.and_eq_true] at this
      exact this.2
    obtain ⟨a, q, hq, ha, hua⟩ := (ms_static_iff p hc).1 hms
    have hmeth : method = "GET".toList ∨ method = "HEAD".toList := by
      have := hmem.2
      simp only [Route.accepts, Bool.and_eq_true] at this
      have h1 := this.1
      simp only [methodMatches, patStatic, String.toList] at h1
      simp only [String.toList]
      simp at h1
      rcases h1 with h1 | h1
      · exact Or.inl h1.symm
      · exact Or.inr h1
    have hslash : firstMatch routes method (p ++ "/".toList) = some (patStatic, staticHandler) := by
      rw [firstMatch_routes, if_pos hmeth]
      have : (matchSegments patStatic.segments (p ++ "/".toList)).isSome = true :=
        (ms_static_iff (p ++ "/".toList) (by rw [hq]; rfl)).2
          ⟨a, q ++ "/".toList, by rw [hq]; simp, ha, hua⟩
      rw [if_pos this]
    rw [hslash]
    have hex : exactMatch (some (Route.hit (patStatic, staticHandler) (p ++ "/".toList)))
        (p ++ "/".toList) = false := by
      rw [hq]
      simp [exactMatch, Route.hit, leaf, routingNode.pattern, patStatic, pattern.lastSegment,
        List.count_append, List.count_cons]
      omega
    simp only [hex]
    simp
  · rw [exactMatch_hit e hmem.1 p p hst]
    simp

/-- A request whose path is in canonical form is served by the first route entry that
matches its method and path. -/
theorem ServeHTTP_of_firstMatch (r : Request) (e : Route) (hu : r.RequestURI ≠ "*".toList)
    (hc : cleanPath r.URL.EscapedPath = r.URL.EscapedPath) (hf : firstMatch routes r.Method r.URL.EscapedPath = some e) :
    mux.ServeHTTP r = e.dispatch r.URL.EscapedPath := by
  have hm := firstMatch_method _ _ _ hf
  have hnc : r.Method ≠ "CONNECT".toList := by
    intro e; rw [e] at hm; revert hm; decide
  unfold ServeMux.ServeHTTP
  rw [if_neg hu]
  unfold ServeMux.findHandler
  rw [if_neg hnc]
  simp only
  rw [hc, matchOrRedirect_of_firstMatch r.Host r.Method r.URL.EscapedPath r.URL.Path e
    (head_of_clean _ hc) hf]
  simp only [ne_eq, not_true_eq_false, if_false]
  rfl


theorem splitSlash_ne_nil (p : Str) : splitSlash p ≠ [] := by
  induction p with
  | nil => simp [splitSlash]
  | cons c cs ih =>
    unfold splitSlash
    by_cases hc : c = '/'
    · simp [hc]
    · rw [if_neg hc]
      cases h : splitSlash cs with
      | nil => exact absurd h ih
      | cons e es => simp

theorem splitSlash_noslash (s : Str) (hs : '/' ∉ s) : splitSlash s = [s] := by
  induction s with
  | nil => rfl
  | cons c cs ih =>
    have hc : c ≠ '/' := fun e => hs (by rw [e]; exact List.mem_cons_self _ _)
    have ht : '/' ∉ cs := fun e => hs (List.mem_cons_of_mem _ e)
    unfold splitSlash
    rw [if_neg hc, ih ht]

theorem splitSlash_append (s r : Str) (hs : '/' ∉ s) :
    splitSlash (s ++ '/' :: r) = s :: splitSlash r := by
  induction s with
  | nil => simp [splitSlash]
  | cons c cs ih =>
    have hc : c ≠ '/' := fun e => hs (by rw [e]; exact List.mem_cons_self _ _)
    have ht : '/' ∉ cs := fun e => hs (List.mem_cons_of_mem _ e)
    rw [List.cons_append, splitSlash, if_neg hc, ih ht]

/-- A view path with a proper segment is in canonical form. -/
theorem cleanPath_view (s : Str) (h0 : s ≠ []) (hs : '/' ∉ s) (h1 : s ≠ ".".toList)
    (h2 : s ≠ "..".toList) :
    cleanPath ("/snippet/view/".toList ++ s) = "/snippet/view/".toList ++ s := by
  have hsplit : splitSlash ("/snippet/view/".toList ++ s) =
      [[], "snippet".toList, "view".toList, s] := by
    have e1 : "/snippet/view/".toList ++ s =
        [] ++ '/' :: ("snippet".toList ++ '/' :: ("view".toList ++ '/' :: s)) := by
      simp
    rw [e1, splitSlash_append _ _ (by simp), splitSlash_append _ _ (by decide),
      splitSlash_append _ _ (by decide), splitSlash_noslash s hs]
  have hclean : Clean ("/snippet/view/".toList ++ s) = "/snippet/view/".toList ++ s := by
    unfold Clean
    rw [hsplit]
    simp only [String.toList] at h1 h2
    simp [cleanElems, h0, h1, h2, joinSlash]
  have hlast : ("/snippet/view/".toList ++ s).getLast? ≠ some '/' := by
    rw [List.getLast?_append_of_ne_nil _ h0]
    intro e
    exact hs (List.mem_of_getLast?_eq_some e)
  unfold cleanPath
  have hne : "/snippet/view/".toList ++ s ≠ [] := by simp
  rw [if_neg hne]
  have hhead : ¬ (("/snippet/view/".toList ++ s).head? ≠ some '/') := by simp
  simp only [hhead, if_false, hclean]
  rw [if_neg]
  exact fun h => hlast h.1


/-- The entry of the table that holds a given handler. -/
theorem route_of_handler (e : Route) (he : e ∈ routes) :
    (e.2 = staticHandler → e = (patStatic, staticHandler)) ∧
    (e.2 = Handler.home → e = (patHome, Handler.home)) ∧
    (e.2 = Handler.snippetView → e = (patView, Handler.snippetView)) ∧
    (e.2 = Handler.snippetCreate → e = (patCreate, Handler.snippetCreate)) ∧
    (e.2 = Handler.snippetCreatePost → e = (patCreatePost, Handler.snippetCreatePost)) := by
  simp only [routes, List.mem_cons, List.mem_singleton, List.not_mem_nil, or_false] at he
  rcases he with he | he | he | he | he <;> subst he <;> simp [staticHandler]

theorem matches_segments (e : Route) (method p : Str) (h : e.accepts method p = true) :
    methodMatches e.1.method method = true ∧ (matchSegments e.1.segments p).isSome = true := by
  simpa [Route.accepts] using h

/-- The escaped path of a request written without escapes is its path, when no byte of
the path needs an escape. -/
theorem request_EscapedPath (method host p : Str) (hu : p ≠ "*".toList)
    (he : escape p = p) : (request method host p).URL.EscapedPath = p := by
  unfold request URL.EscapedPath
  simp only [ne_eq, not_true_eq_false, false_and, if_false, if_neg hu, he]

theorem ServeHTTP_request (method host p : Str) (e : Route) (hu : p ≠ "*".toList)
    (he : escape p = p) (hc : cleanPath p = p) (hf : firstMatch routes method p = some e) :
    mux.ServeHTTP (request method host p) = e.dispatch p := by
  have hE := request_EscapedPath method host p hu he
  have := ServeHTTP_of_firstMatch (request method host p) e hu (by rw [hE]; exact hc)
    (by rw [hE]; exact hf)
  rw [hE] at this
  exact this

theorem noPathMatch_none (p : Str) (h : noPathMatch p) :
    matchPath (some getNode) p [] = none ∧ matchPath (some postNode) p [] = none ∧
      ∀ method, firstMatch routes method p = none := by
  have h1 : matchSegments patStatic.segments p = none := h (patStatic, staticHandler) (by decide)
  have h2 : matchSegments patHome.segments p = none := h (patHome, Handler.home) (by decide)
  have h3 : matchSegments patView.segments p = none := h (patView, Handler.snippetView) (by decide)
  have h4 : matchSegments patCreate.segments p = none :=
    h (patCreate, Handler.snippetCreate) (by decide)
  refine ⟨?_, ?_, fun method => ?_⟩
  · rw [mp_get_entries, h1, h2, h3, h4]; rfl
  · rw [mp_post_entries, h4]; rfl
  · rw [firstMatch_routes, h1, h2, h3, h4]; simp

theorem matchingMethods_routeTree (host p : Str) :
    routeTree.matchingMethods host p =
      if (matchPath (some getNode) p []).isSome then
        if (matchPath (some postNode) p []).isSome then
          ["GET".toList, "POST".toList, "HEAD".toList]
        else ["GET".toList, "HEAD".toList]
      else if (matchPath (some postNode) p []).isSome then ["POST".toList]
      else [] := by
  have hroot : (if host ≠ [] then matchingMethodsPath (routeTree.findChild host) p else []) =
      [] := by
    by_cases hh : host = []
    · simp [hh]
    · simp [hh, routeTree, findChild, routingNode.find, routingNode.children,
        matchingMethodsPath]
  unfold routingNode.matchingMethods
  rw [hroot]
  simp only [routeTree, routingNode.emptyChild, matchingMethodsPath, routingNode.children,
    List.filter, List.nil_append]
  cases (matchPath (some getNode) p []).isSome <;>
  cases (matchPath (some postNode) p []).isSome <;> simp

/-- A request with a canonical path that no pattern matches, with or without a slash
appended, gets the not-found reply. -/
theorem ServeHTTP_notFound (r : Request) (hu : r.RequestURI ≠ "*".toList)
    (hc : cleanPath r.URL.EscapedPath = r.URL.EscapedPath) (h1 : noPathMatch r.URL.EscapedPath)
    (h2 : noPathMatch (r.URL.EscapedPath ++ "/".toList)) : mux.ServeHTTP r = Dispatch.notFound := by
  obtain ⟨g1, p1, f1⟩ := noPathMatch_none _ h1
  obtain ⟨g2, p2, f2⟩ := noPathMatch_none _ h2
  have hmor : ∀ b, mux.matchOrRedirect r.Host r.Method r.URL.EscapedPath b r.URL.Path = (none, none) := by
    intro b
    unfold ServeMux.matchOrRedirect
    simp only
    rw [mux_match, mux_match, f1, f2]
    simp [exactMatch]
  have hmm : mux.matchingMethods r.Host r.URL.EscapedPath = [] := by
    unfold ServeMux.matchingMethods
    simp only
    rw [mux_tree, matchingMethods_routeTree, matchingMethods_routeTree, g1, p1, g2, p2]
    simp
  have hfound : mux.found none r.Host r.URL.EscapedPath = Dispatch.notFound := by
    unfold ServeMux.found
    simp [hmm]
  unfold ServeMux.ServeHTTP
  rw [if_neg hu]
  unfold ServeMux.findHandler
  by_cases hcn : r.Method = "CONNECT".toList
  · rw [if_pos hcn, hmor true, hmor false]
    exact hfound
  · rw [if_neg hcn]
    simp only
    rw [hc, hmor true]
    simp only [ne_eq, not_true_eq_false, if_false]
    exact hfound

theorem methodMatches_cases (pm method : Str) (h : methodMatches pm method = true) :
    pm = [] ∨ pm = method ∨ (pm = "GET".toList ∧ method = "HEAD".toList) := by
  simpa [methodMatches, or_assoc] using h

/-- A path that some pattern matches has at least one method that would be allowed. -/
theorem matchingMethods_ne_nil (host p : Str) (h : ¬ noPathMatch p) :
    routeTree.matchingMethods host p ≠ [] := by
  rw [matchingMethods_routeTree]
  by_cases hg : (matchPath (some getNode) p []).isSome = true
  · rw [if_pos hg]; split_ifs <;> simp
  · exfalso
    apply h
    rw [mp_get_entries] at hg
    have h1 : (matchSegments patStatic.segments p).isSome = false := by
      by_contra hx; simp only [Bool.not_eq_false] at hx; simp [hx] at hg
    have h2 : (matchSegments patHome.segments p).isSome = false := by
      by_contra hx; simp only [Bool.not_eq_false] at hx; simp [hx, h1] at hg
    have h3 : (matchSegments patView.segments p).isSome = false := by
      by_contra hx; simp only [Bool.not_eq_false] at hx; simp [hx, h1, h2] at hg
    have h4 : (matchSegments patCreate.segments p).isSome = false := by
      by_contra hx; simp only [Bool.not_eq_false] at hx; simp [hx, h1, h2, h3] at hg
    intro e he
    simp only [routes, List.mem_cons, List.mem_singleton, List.not_mem_nil, or_false] at he
    rcases he with he | he | he | he | he <;> subst he
    · simpa using h1
    · simpa using h2
    · simpa using h3
    · simpa using h4
    · rw [ms_createPost]; simpa using h4

/-- A request with a canonical path that some pattern matches, though none under the
request's method (also with a slash appended), gets the method-not-allowed reply. -/
theorem ServeHTTP_methodNotAllowed (r : Request) (hu : r.RequestURI ≠ "*".toList)
    (hc : cleanPath r.URL.EscapedPath = r.URL.EscapedPath) (hf : firstMatch routes r.Method r.URL.EscapedPath = none)
    (h1 : ¬ noPathMatch r.URL.EscapedPath)
    (f2 : firstMatch routes r.Method (r.URL.EscapedPath ++ "/".toList) = none) :
    mux.ServeHTTP r = Dispatch.methodNotAllowed := by
  have hmor : ∀ b, mux.matchOrRedirect r.Host r.Method r.URL.EscapedPath b r.URL.Path = (none, none) := by
    intro b
    unfold ServeMux.matchOrRedirect
    simp only
    rw [mux_match, mux_match, hf, f2]
    simp [exactMatch]
  have hmm : mux.matchingMethods r.Host r.URL.EscapedPath ≠ [] := by
    unfold ServeMux.matchingMethods
    simp only
    rw [mux_tree]
    have := matchingMethods_ne_nil r.Host r.URL.EscapedPath h1
    split_ifs
    · intro e
      exact this (List.append_eq_nil.1 e).1
    · exact this
  have hfound : mux.found none r.Host r.URL.EscapedPath = Dispatch.methodNotAllowed := by
    unfold ServeMux.found
    simp [hmm]
  unfold ServeMux.ServeHTTP
  rw [if_neg hu]
  unfold ServeMux.findHandler
  by_cases hcn : r.Method = "CONNECT".toList
  · rw [if_pos hcn, hmor true, hmor false]
    exact hfound
  · rw [if_neg hcn]
    simp only
    rw [hc, hmor true]
    simp only [ne_eq, not_true_eq_false, if_false]
    exact hfound

/-- What a pattern of `main` that matches a path says about the first two segments. -/
theorem matches_key (e : Route) (he : e ∈ routes) (p : Str)
    (h : (matchSegments e.1.segments p).isSome = true) :
    (e.1.segments = patStatic.segments ∧ (firstSegment p).1 = "static".toList) ∨
    (e.1.segments = patHome.segments ∧ (firstSegment p).1 = "/".toList) ∨
    (e.1.segments = patView.segments ∧ (firstSegment p).1 = "snippet".toList ∧
      (firstSegment (firstSegment p).2).1 = "view".toList) ∨
    (e.1.segments = patCreate.segments ∧ (firstSegment p).1 = "snippet".toList ∧
      (firstSegment (firstSegment p).2).1 = "create".toList) := by
  simp only [routes, List.mem_cons, List.mem_singleton, List.not_mem_nil, or_false] at he
  simp only [String.toList]
  rcases he with he | he | he | he | he <;> subst he
  · left
    refine ⟨rfl, ?_⟩
    rw [ms_static] at h
    by_contra hx
    simp [hx] at h
  · right; left
    refine ⟨rfl, ?_⟩
    rw [ms_home] at h
    by_contra hx
    simp [hx] at h
  · right; right; left
    refine ⟨rfl, ?_⟩
    rw [ms_view] at h
    by_cases h1 : (firstSegment p).1 = ['s', 'n', 'i', 'p', 'p', 'e', 't']
    · refine ⟨h1, ?_⟩
      by_contra hx
      simp [h1, hx] at h
    · simp [h1] at h
  · right; right; right
    refine ⟨rfl, ?_⟩
    rw [ms_create] at h
    by_cases h1 : (firstSegment p).1 = ['s', 'n', 'i', 'p', 'p', 'e', 't']
    · refine ⟨h1, ?_⟩
      by_contra hx
      simp [h1, hx] at h
    · simp [h1] at h
  · right; right; right
    refine ⟨rfl, ?_⟩
    rw [ms_createPost, ms_create] at h
    by_cases h1 : (firstSegment p).1 = ['s', 'n', 'i', 'p', 'p', 'e', 't']
    · refine ⟨h1, ?_⟩
      by_contra hx
      simp [h1, hx] at h
    · simp [h1] at h

theorem get_post_disjoint (m : Str) (h1 : methodMatches "GET".toList m = true)
    (h2 : methodMatches "POST".toList m = true) : False := by
  rcases methodMatches_cases _ _ h1 with h | h | h
  · exact absurd h (by decide)
  · subst h; exact absurd h2 (by decide)
  · rw [h.2] at h2; exact absurd h2 (by decide)

/-- At most one route entry matches a method and path. -/
theorem routes_unique (method p : Str) (e1 e2 : Route) (h1 : e1 ∈ routes) (h2 : e2 ∈ routes)
    (m1 : e1.accepts method p = true) (m2 : e2.accepts method p = true) : e1 = e2 := by
  obtain ⟨a1, b1⟩ := matches_segments _ _ _ m1
  obtain ⟨a2, b2⟩ := matches_segments _ _ _ m2
  have k1 := matches_key e1 h1 p b1
  have k2 := matches_key e2 h2 p b2
  have c1 := methodMatches_cases _ _ a1
  have c2 := methodMatches_cases _ _ a2
  simp only [routes, List.mem_cons, List.mem_singleton, List.not_mem_nil, or_false] at h1 h2
  generalize (firstSegment (firstSegment p).2).1 = s2 at k1 k2
  generalize (firstSegment p).1 = s1 at k1 k2
  rcases h1 with h1 | h1 | h1 | h1 | h1 <;> rcases h2 with h2 | h2 | h2 | h2 | h2 <;>
    (subst h1; subst h2) <;> first
      | rfl
      | exact (get_post_disjoint method a1 a2).elim
      | exact (get_post_disjoint method a2 a1).elim
      | (exfalso
         simp only [patStatic, patHome, patView, patCreate, patCreatePost, String.toList] at k1 k2 c1 c2
         simp at k1 k2 c1 c2
         rcases k1 with k1 | k1
         all_goals rcases k2 with k2 | k2
         all_goals simp_all)

theorem find?_perm_unique {α : Type} (P : α → Bool) (l l' : List α)
    (hu : ∀ a ∈ l, ∀ b ∈ l, P a = true → P b = true → a = b) (hp : l'.Perm l) :
    l'.find? P = l.find? P := by
  cases h : l.find? P with
  | none =>
    rw [List.find?_eq_none] at h ⊢
    intro a ha
    exact h a (hp.mem_iff.1 ha)
  | some a =>
    have ha : a ∈ l := List.mem_of_find?_eq_some h
    have hPa : P a = true := List.find?_some h
    cases h' : l'.find? P with
    | none =>
      rw [List.find?_eq_none] at h'
      exact absurd hPa (h' a (hp.mem_iff.2 ha))
    | some b =>
      have hb : b ∈ l := hp.mem_iff.1 (List.mem_of_find?_eq_some h')
      have hPb : P b = true := List.find?_some h'
      rw [hu b hb a ha hPb hPa]

theorem listAll2_eq {α : Type} (f : α → α → Bool) (hf : ∀ a b, f a b = true → a = b) :
    ∀ l l' : List α, listAll2 f l l' = true → l = l' := by
  intro l
  induction l with
  | nil => intro l' h; cases l' with
    | nil => rfl
    | cons b bs => simp [listAll2] at h
  | cons a as ih => intro l' h; cases l' with
    | nil => simp [listAll2] at h
    | cons b bs =>
      simp only [listAll2, Bool.and_eq_true] at h
      rw [hf a b h.1, ih bs h.2]

theorem optAll2_eq {α : Type} (f : α → α → Bool) (hf : ∀ a b, f a b = true → a = b) :
    ∀ o o' : Option α, optAll2 f o o' = true → o = o' := by
  intro o o' h
  cases o <;> cases o' <;> simp [optAll2] at h ⊢
  exact hf _ _ h

theorem same_eq (d : Nat) : ∀ a b : routingNode, routingNode.same d a b = true → a = b := by
  induction d with
  | zero => intro a b h; simp [routingNode.same] at h
  | succ d ih =>
    intro a b h
    cases a with
    | mk p h1 cs m e =>
      cases b with
      | mk p' h' cs' m' e' =>
        simp only [routingNode.same, Bool.and_eq_true, decide_eq_true_eq] at h
        obtain ⟨⟨⟨⟨hp, hh⟩, hcs⟩, hm⟩, he⟩ := h
        have e1 := listAll2_eq _ (fun (x y : Str × routingNode) hxy => by
          simp only [Bool.and_eq_true, decide_eq_true_eq] at hxy
          exact Prod.ext hxy.1 (ih _ _ hxy.2)) cs cs' hcs
        have e2 := optAll2_eq _ ih m m' hm
        have e3 := optAll2_eq _ ih e e' he
        rw [hp, hh, e1, e2, e3]

/-- Serving depends on the routing tree only. -/
theorem ServeHTTP_tree (m m' : ServeMux) (h : m.tree = m'.tree) (r : Request) :
    m.ServeHTTP r = m'.ServeHTTP r := by
  simp only [ServeMux.ServeHTTP, ServeMux.findHandler, ServeMux.matchOrRedirect, ServeMux.found,
    ServeMux.matchingMethods, h]

set_option maxRecDepth 1000000 in
/-- Registering the five routes in any order builds the same routing tree. -/
theorem register_perm_tree :
    ∀ t ∈ routeTable.permutations',
      optAll2 (routingNode.same 6) ((NewServeMux.register t).map ServeMux.tree)
        (some routeTree) = true := by
  decide!


/-- Registering the five routes in any order gives a multiplexer that serves every
request as the one of `main` does. -/
theorem register_perm (t : List (Str × Handler)) (ht : t.Perm routeTable) :
    ∃ m, NewServeMux.register t = some m ∧ ∀ r, m.ServeHTTP r = mux.ServeHTTP r := by
  have hmem : t ∈ routeTable.permutations' := List.mem_permutations'.2 ht
  have hsame := register_perm_tree t hmem
  have heq := optAll2_eq _ (same_eq 6) _ _ hsame
  cases hr : NewServeMux.register t with
  | none => rw [hr] at heq; simp at heq
  | some m =>
    rw [hr] at heq
    simp only [Option.map, Option.some.injEq] at heq
    exact ⟨m, rfl, fun r => ServeHTTP_tree m mux (heq.trans mux_tree.symm) r⟩

/-- `GET /static` is redirected to `/static/`. -/
theorem ServeHTTP_static_redirect (host : Str) :
    mux.ServeHTTP (request "GET".toList host "/static".toList) =
      Dispatch.redirect "/static/".toList := by
  have h1 : firstMatch routes "GET".toList "/static".toList = none := by decide
  have h2 : firstMatch routes "GET".toList ("/static".toList ++ "/".toList) =
      some (patStatic, staticHandler) := by decide
  have hex : exactMatch (some (Route.hit (patStatic, staticHandler)
      ("/static".toList ++ "/".toList))) ("/static".toList ++ "/".toList) = true := by rfl
  have hcl : cleanPath "/static".toList = "/static".toList := by decide
  have hmor : mux.matchOrRedirect host "GET".toList "/static".toList true "/static".toList =
      (none, some "/static/".toList) := by
    unfold ServeMux.matchOrRedirect
    simp only
    rw [mux_match, mux_match, h1, h2]
    simp only [Option.map, hex, hcl, exactMatch]
    rfl
  have hu : ¬ (request "GET".toList host "/static".toList).RequestURI = "*".toList := by
    show ¬ "/static".toList = "*".toList
    decide
  have hm : ¬ (request "GET".toList host "/static".toList).Method = "CONNECT".toList := by
    show ¬ "GET".toList = "CONNECT".toList
    decide
  have hE : (request "GET".toList host "/static".toList).URL.EscapedPath = "/static".toList :=
    request_EscapedPath _ host _ (by decide) (by decide)
  have hP : (request "GET".toList host "/static".toList).URL.Path = "/static".toList := rfl
  have hH : (request "GET".toList host "/static".toList).Host = host := rfl
  have hM : (request "GET".toList host "/static".toList).Method = "GET".toList := rfl
  unfold ServeMux.ServeHTTP
  rw [if_neg hu]
  unfold ServeMux.findHandler
  rw [if_neg hm]
  simp only
  rw [hE, hP, hH, hM, hcl, hmor]

/-- A path whose last byte is not a slash is cleaned by `path.Clean` alone. -/
theorem cleanPath_eq_Clean (p : Str) (hh : p.head? = some '/')
    (hl : p.getLast? ≠ some '/') : cleanPath p = Clean p := by
  unfold cleanPath
  have hne : p ≠ [] := by intro e; rw [e] at hh; simp at hh
  rw [if_neg hne]
  have hhead : ¬ (p.head? ≠ some '/') := by simp [hh]
  simp only [hhead, if_false]
  rw [if_neg]
  exact fun h => hl h.1

/-- The canonical form of a path of three segments without a trailing slash. -/
theorem Clean_three (a b s : Str) (ha : '/' ∉ a) (hb : '/' ∉ b) (hs : '/' ∉ s)
    (ha0 : a ≠ []) (ha1 : a ≠ ".".toList) (ha2 : a ≠ "..".toList)
    (hb0 : b ≠ []) (hb1 : b ≠ ".".toList) (hb2 : b ≠ "..".toList) (hs0 : s ≠ []) :
    cleanPath ('/' :: a ++ '/' :: b ++ '/' :: s) =
      if s = ".".toList then '/' :: a ++ '/' :: b
      else if s = "..".toList then '/' :: a
      else '/' :: a ++ '/' :: b ++ '/' :: s := by
  have hsplit : splitSlash ('/' :: a ++ '/' :: b ++ '/' :: s) = [[], a, b, s] := by
    have e1 : '/' :: a ++ '/' :: b ++ '/' :: s = [] ++ '/' :: (a ++ '/' :: (b ++ '/' :: s)) := by
      simp
    rw [e1, splitSlash_append _ _ (by simp), splitSlash_append _ _ ha,
      splitSlash_append _ _ hb, splitSlash_noslash s hs]
  have hlast : ('/' :: a ++ '/' :: b ++ '/' :: s).getLast? ≠ some '/' := by
    have e2 : '/' :: a ++ '/' :: b ++ '/' :: s = ('/' :: a ++ '/' :: b ++ ['/']) ++ s := by simp
    rw [e2, List.getLast?_append_of_ne_nil _ hs0]
    intro e
    exact hs (List.mem_of_getLast?_eq_some e)
  rw [cleanPath_eq_Clean _ (by simp) hlast]
  unfold Clean
  rw [hsplit]
  simp only [String.toList] at ha1 ha2 hb1 hb2 ⊢
  by_cases h1 : s = ['.']
  · simp [cleanElems, ha0, ha1, ha2, hb0, hb1, hb2, h1, joinSlash]
  · by_cases h2 : s = ['.', '.']
    · simp [cleanElems, ha0, ha1, ha2, hb0, hb1, hb2, h2, joinSlash]
    · simp [cleanElems, ha0, ha1, ha2, hb0, hb1, hb2, hs0, h1, h2, joinSlash]

/-- A path of three segments is in canonical form exactly when the last segment is
neither `.` nor `..`. -/
theorem cleanPath_three (a b s : Str) (ha : '/' ∉ a) (hb : '/' ∉ b) (hs : '/' ∉ s)
    (ha0 : a ≠ []) (ha1 : a ≠ ".".toList) (ha2 : a ≠ "..".toList)
    (hb0 : b ≠ []) (hb1 : b ≠ ".".toList) (hb2 : b ≠ "..".toList) (hs0 : s ≠ []) :
    cleanPath ('/' :: a ++ '/' :: b ++ '/' :: s) = '/' :: a ++ '/' :: b ++ '/' :: s ↔
      s ≠ ".".toList ∧ s ≠ "..".toList := by
  rw [Clean_three a b s ha hb hs ha0 ha1 ha2 hb0 hb1 hb2 hs0]
  by_cases h1 : s = ".".toList
  · rw [if_pos h1]
    constructor
    · intro h
      have := congrArg List.length h
      simp at this
    · intro h; exact absurd h1 h.1
  · rw [if_neg h1]
    by_cases h2 : s = "..".toList
    · rw [if_pos h2]
      constructor
      · intro h
        have := congrArg List.length h
        simp at this
      · intro h; exact absurd h2 h.2
    · rw [if_neg h2]
      exact ⟨fun _ => ⟨h1, h2⟩, fun _ => rfl⟩

theorem escape_eq_nil (s : Str) (h : escape s = []) : s = [] := by
  rcases s with _ | ⟨c, cs⟩
  · rfl
  · unfold escape at h
    split_ifs at h

/-- In the mode `encodePath` a slash is written as it is, and nothing else is written as
a slash. -/
theorem escape_head (s : Str) (h : (escape s).head? = some '/') : s.head? = some '/' := by
  rcases s with _ | ⟨c, cs⟩
  · simp [escape] at h
  · unfold escape at h
    split_ifs at h
    · simp at h
    · simpa using h

theorem escape_static (x : Str) :
    escape ("/static".toList ++ x) = "/static".toList ++ escape x := by
  simp [escape, shouldEscape]

theorem unescape_static (z : Str) :
    unescape ("/static".toList ++ z) = (unescape z).map (fun t => "/static".toList ++ t) := by
  simp only [String.toList, List.cons_append, List.nil_append]
  rw [unescape_cons _ _ (by decide), unescape_cons _ _ (by decide), unescape_cons _ _ (by decide),
    unescape_cons _ _ (by decide), unescape_cons _ _ (by decide), unescape_cons _ _ (by decide),
    unescape_cons _ _ (by decide)]
  cases unescape z <;> rfl

/-- A segment that begins with `static` decodes to `static` only if it is `static`. -/
theorem pathUnescape_static (z : Str) (h : pathUnescape ("static".toList ++ z) = "static".toList) :
    z = [] := by
  unfold pathUnescape at h
  have hu : unescape ("static".toList ++ z) = (unescape z).map (fun t => "static".toList ++ t) := by
    simp only [String.toList, List.cons_append, List.nil_append]
    rw [unescape_cons _ _ (by decide), unescape_cons _ _ (by decide),
      unescape_cons _ _ (by decide), unescape_cons _ _ (by decide),
      unescape_cons _ _ (by decide), unescape_cons _ _ (by decide)]
    cases unescape z <;> rfl
  rw [hu] at h
  cases hz : unescape z with
  | none =>
    rw [hz] at h
    simpa using h
  | some t =>
    rw [hz] at h
    have ht : t = [] := by simpa using h
    subst ht
    exact unescape_eq_nil z hz

/-- The three ways in which Go `EscapedPath` finds its result. -/
theorem EscapedPath_cases (u : URL) :
    (u.EscapedPath = u.RawPath ∧ u.RawPath ≠ [] ∧ unescape u.RawPath = some u.Path) ∨
    (u.EscapedPath = "*".toList ∧ u.Path = "*".toList) ∨
    u.EscapedPath = escape u.Path := by
  unfold URL.EscapedPath
  split_ifs with h1 h2
  · exact Or.inl ⟨rfl, h1.1, h1.2.2⟩
  · exact Or.inr (Or.inl ⟨rfl, h2⟩)
  · exact Or.inr (Or.inr rfl)

/-- What the static handler does with a request. -/
theorem staticHandler_ServeHTTP (u : URL) :
    staticHandler.ServeHTTP u =
      if "/static".toList <+: u.Path ∧ (u.RawPath = [] ∨ "/static".toList <+: u.RawPath) then
        Served.files staticRoot (u.Path.drop 7)
      else Served.notFound := by
  have key : ∀ s : Str, (TrimPrefix s "/static".toList).length < s.length ↔
      "/static".toList <+: s := by
    intro s
    unfold TrimPrefix
    by_cases hp : "/static".toList.isPrefixOf s = true
    · rw [if_pos hp]
      have hp' : "/static".toList <+: s := List.isPrefixOf_iff_prefix.1 hp
      refine ⟨fun _ => hp', fun _ => ?_⟩
      obtain ⟨t, ht⟩ := hp'
      rw [← ht]
      simp
      omega
    · rw [if_neg hp]
      have hp' : ¬ "/static".toList <+: s := fun h => hp (List.isPrefixOf_iff_prefix.2 h)
      exact ⟨fun h => absurd h (lt_irrefl _), fun h => absurd h hp'⟩
  have hdrop : ∀ s : Str, "/static".toList <+: s → TrimPrefix s "/static".toList = s.drop 7 := by
    intro s hs
    unfold TrimPrefix
    rw [if_pos (List.isPrefixOf_iff_prefix.2 hs)]
    rfl
  unfold staticHandler
  rw [Handler.ServeHTTP]
  simp only [key]
  split_ifs with h
  · rw [Handler.ServeHTTP, hdrop _ h.1]
  · rfl

theorem upperhex_cases (n : Nat) :
    (upperhex n = '2' → n = 2) ∧ (upperhex n = 'F' → n = 15) ∧ upperhex n ≠ 'f' ∧
      upperhex n ≠ '/' := by
  by_cases hn : n < 16
  · interval_cases n <;> decide
  · have : upperhex n = '0' := by
      unfold upperhex
      exact List.getD_eq_default _ _ (by simp only [String.toList]; simpa using hn)
    rw [this]
    exact ⟨fun h => absurd h (by decide), fun h => absurd h (by decide), by decide, by decide⟩

/-- The default encoding writes a slash for a slash only. -/
theorem escape_cons_slash (s t : Str) (h : escape s = '/' :: t) :
    ∃ s', s = '/' :: s' ∧ escape s' = t := by
  rcases s with _ | ⟨c, cs⟩
  · simp [escape] at h
  · unfold escape at h
    split_ifs at h
    · simp at h
    · simp only [List.cons.injEq] at h
      exact ⟨cs, by rw [h.1], h.2⟩

/-- The default encoding never writes the escape of a slash. -/
theorem escape_ne_slash (s : Str) (y : Char) (t : Str) (hy : y = 'F' ∨ y = 'f') :
    escape s ≠ '%' :: '2' :: y :: t := by
  intro h
  rcases s with _ | ⟨c, cs⟩
  · simp [escape] at h
  · unfold escape at h
    split_ifs at h with hc
    · simp only [List.cons.injEq, true_and] at h
      obtain ⟨h1, h2, _⟩ := h
      have e1 := (upperhex_cases (c.toNat / 16)).1 h1
      rcases hy with hy | hy
      · rw [hy] at h2
        have e2 := (upperhex_cases (c.toNat % 16)).2.1 h2
        have hc47 : c.toNat = 47 := by omega
        have := char_of_toNat c 47 hc47
        rw [this] at hc
        revert hc
        decide
      · rw [hy] at h2
        exact (upperhex_cases (c.toNat % 16)).2.2.1 h2
    · simp only [List.cons.injEq] at h
      rw [h.1] at hc
      revert hc
      decide

/-- For a path in the default encoding, the escaped path is `/` only for the path `/`,
and is never the escaped slash. -/
theorem escape_home (s : Str) :
    (escape s = "/".toList ∨ escape s = "/%2F".toList ∨ escape s = "/%2f".toList) ↔
      s = "/".toList := by
  constructor
  · intro h
    rcases h with h | h | h
    · obtain ⟨s', hs, he⟩ := escape_cons_slash s [] h
      rw [hs, escape_eq_nil s' he]
      rfl
    · obtain ⟨s', _, he⟩ := escape_cons_slash s "%2F".toList h
      exact absurd he (escape_ne_slash s' 'F' [] (Or.inl rfl))
    · obtain ⟨s', _, he⟩ := escape_cons_slash s "%2f".toList h
      exact absurd he (escape_ne_slash s' 'f' [] (Or.inr rfl))
  · intro h
    subst h
    left
    decide

/-- The view pattern on a path of three segments. -/
theorem ms_view_three (a b s : Str) (ha : '/' ∉ a) (hb : '/' ∉ b) (hs : '/' ∉ s) :
    matchSegments patView.segments ('/' :: a ++ '/' :: b ++ '/' :: s) =
      if pathUnescape a = "snippet".toList ∧ pathUnescape b = "view".toList ∧ s ≠ [] ∧
          pathUnescape s ≠ "/".toList then some [pathUnescape s]
      else none := by
  have f1 : firstSegment ('/' :: a ++ '/' :: b ++ '/' :: s) =
      (pathUnescape a, '/' :: b ++ '/' :: s) := by
    have := firstSegment_append a ('/' :: b ++ '/' :: s) ha (Or.inr rfl) (by simp)
    simpa using this
  have f2 : firstSegment ('/' :: b ++ '/' :: s) = (pathUnescape b, '/' :: s) :=
    firstSegment_append b ('/' :: s) hb (Or.inr rfl) (by simp)
  have f3 : firstSegment ('/' :: s) = if s = [] then (['/'], []) else (pathUnescape s, []) := by
    by_cases hs0 : s = []
    · subst hs0; rfl
    · rw [if_neg hs0]
      have := firstSegment_append s [] hs (Or.inl rfl) (by simpa using hs0)
      simpa using this
  rw [ms_view, f1]
  simp only [f2, f3]
  simp only [String.toList]
  by_cases h1 : pathUnescape a = ['s', 'n', 'i', 'p', 'p', 'e', 't']
  · by_cases h2 : pathUnescape b = ['v', 'i', 'e', 'w']
    · by_cases h0 : s = []
      · simp [h1, h2, h0]
      · by_cases h3 : pathUnescape s = ['/']
        · simp [h1, h2, h3, h0]
        · simp [h1, h2, h3, h0]
    · simp [h1, h2]
  · simp [h1]

/-- Two strings with a common continuation after a slash-free beginning. -/
theorem append_slash_split (w : Str) : ∀ (a y q : Str), '/' ∉ w → '/' ∉ a →
    w ++ y = a ++ '/' :: q → ∃ z, a = w ++ z ∧ y = z ++ '/' :: q := by
  induction w with
  | nil => intro a y q _ _ h; exact ⟨a, rfl, by simpa using h⟩
  | cons c w ih =>
    intro a y q hw ha h
    rcases a with _ | ⟨d, a'⟩
    · simp only [List.cons_append, List.nil_append, List.cons.injEq] at h
      exact absurd (by rw [h.1]; exact List.mem_cons_self _ _) hw
    · simp only [List.cons_append, List.cons.injEq] at h
      obtain ⟨z, hz1, hz2⟩ := ih a' y q (fun e => hw (List.mem_cons_of_mem _ e))
        (fun e => ha (List.mem_cons_of_mem _ e)) h.2
      exact ⟨z, by rw [h.1, hz1]; rfl, hz2⟩

/-- A request that the static handler passes on to the file server has `/static/` at the
beginning of its escaped path and of its path. -/
theorem static_served (u : URL) (root q : Str) (a q0 : Str)
    (hE : u.EscapedPath = '/' :: a ++ '/' :: q0) (ha : '/' ∉ a)
    (hua : pathUnescape a = "static".toList)
    (hs : staticHandler.ServeHTTP u = Served.files root q) :
    "/static/".toList <+: u.EscapedPath ∧ "/static/".toList <+: u.Path ∧
      root = staticRoot ∧ q = u.Path.drop 7 := by
  rw [staticHandler_ServeHTTP] at hs
  split_ifs at hs with hcond
  simp only [Served.files.injEq] at hs
  obtain ⟨hP, hR⟩ := hcond
  obtain ⟨x, hx⟩ := hP
  have hpre : "/static".toList <+: u.EscapedPath := by
    rcases EscapedPath_cases u with ⟨h1, h2, _⟩ | ⟨h1, _⟩ | h1
    · rw [h1]
      rcases hR with hR | hR
      · exact absurd hR h2
      · exact hR
    · rw [h1] at hE; simp at hE
    · rw [h1, ← hx, escape_static]
      exact ⟨_, rfl⟩
  obtain ⟨y, hy⟩ := hpre
  have hsplit : "static".toList ++ y = a ++ '/' :: q0 := by
    have := hy.trans hE
    simpa using this
  obtain ⟨z, hz1, hz2⟩ := append_slash_split "static".toList a y q0 (by decide) ha hsplit
  have hz : z = [] := pathUnescape_static z (by rw [← hz1]; exact hua)
  subst hz
  have hy' : y = '/' :: q0 := by simpa using hz2
  have hE' : u.EscapedPath = "/static/".toList ++ q0 := by
    rw [← hy, hy']; simp
  refine ⟨⟨q0, hE'.symm⟩, ?_, hs.1.symm, hs.2.symm⟩
  rcases EscapedPath_cases u with ⟨h1, _, h3⟩ | ⟨h1, _⟩ | h1
  · rw [← h1, hE'] at h3
    have e : "/static/".toList ++ q0 = "/static".toList ++ ('/' :: q0) := by simp
    rw [e, unescape_static, unescape_cons _ _ (by decide)] at h3
    cases hq : unescape q0 with
    | none => rw [hq] at h3; simp at h3
    | some t =>
      rw [hq] at h3
      simp only [Option.map, Option.some.injEq] at h3
      exact ⟨t, by rw [← h3]; simp⟩
  · rw [h1] at hE; simp at hE
  · rw [hE', ← hx, escape_static] at h1
    have e : "/static/".toList ++ q0 = "/static".toList ++ ('/' :: q0) := by simp
    rw [e] at h1
    have h2 := List.append_cancel_left h1
    have h3 := escape_head x (by rw [← h2]; rfl)
    rcases x with _ | ⟨c, x'⟩
    · simp at h3
    · have hc : c = '/' := by simpa using h3
      subst hc
      exact ⟨x', by rw [← hx]; simp⟩

/-- The create pattern matches no path that ends in a slash. -/
theorem ms_create_slash (p : Str) (hh : p.head? = some '/') :
    (matchSegments patCreate.segments (p ++ "/".toList)).isSome = false := by
  rw [Bool.eq_false_iff]
  intro h
  rw [ms_create] at h
  have hP : (p ++ "/".toList).head? = some '/' := by
    rcases p with _ | ⟨c, q⟩
    · rfl
    · simpa using hh
  have hlast : (p ++ "/".toList).getLast? = some '/' := by simp
  generalize p ++ "/".toList = P at h hP hlast
  by_cases hp : P = []
  · simp [hp] at h
  · rw [if_neg hp] at h
    by_cases h1 : (firstSegment P).1 = "snippet".toList
    · rw [if_pos h1] at h
      by_cases h2 : (firstSegment P).2 = []
      · simp [h2] at h
      · rw [if_neg h2] at h
        by_cases h3 : (firstSegment (firstSegment P).2).1 = "create".toList
        · rw [if_pos h3] at h
          by_cases h4 : (firstSegment (firstSegment P).2).2 = []
          · have hne : P ≠ "/".toList := by
              intro e; subst e; revert h1; decide
            have hne1 : (firstSegment P).2 ≠ "/".toList := by
              intro e; rw [e] at h3; revert h3; decide
            obtain ⟨a, ha, hfa, e0⟩ := firstSegment_split P hP hne
            obtain ⟨b, hb, hfb, e1⟩ := firstSegment_split_rest P h2 hne1
            rw [h4, List.append_nil] at e1
            rw [e1] at e0
            have hb0 : b ≠ [] := by
              intro e
              rw [e] at hfb
              rw [h3] at hfb
              revert hfb
              decide
            have e2 : P = ('/' :: a ++ ['/']) ++ b := by rw [e0]; simp
            rw [e2, List.getLast?_append_of_ne_nil _ hb0] at hlast
            exact hb (List.mem_of_getLast?_eq_some hlast)
          · rw [if_neg h4] at h; simp at h
        · rw [if_neg h3] at h; simp at h
    · rw [if_neg h1] at h; simp at h

/-- A path that some pattern matches, though no entry matches it under the method, is
not matched under the method with a slash appended either. -/
theorem firstMatch_slash_none (method p : Str) (hh : p.head? = some '/')
    (hf : firstMatch routes method p = none) (h1 : ¬ noPathMatch p) :
    firstMatch routes method (p ++ "/".toList) = none := by
  rw [firstMatch_routes] at hf ⊢
  by_cases hg : method = "GET".toList ∨ method = "HEAD".toList
  · exfalso
    apply h1
    rw [if_pos hg] at hf
    have s1 : (matchSegments patStatic.segments p).isSome = false := by
      by_contra hx; simp only [Bool.not_eq_false] at hx; simp [hx] at hf
    have s2 : (matchSegments patHome.segments p).isSome = false := by
      by_contra hx; simp only [Bool.not_eq_false] at hx; simp [hx, s1] at hf
    have s3 : (matchSegments patView.segments p).isSome = false := by
      by_contra hx; simp only [Bool.not_eq_false] at hx; simp [hx, s1, s2] at hf
    have s4 : (matchSegments patCreate.segments p).isSome = false := by
      by_contra hx; simp only [Bool.not_eq_false] at hx; simp [hx, s1, s2, s3] at hf
    intro e he
    simp only [routes, List.mem_cons, List.mem_singleton, List.not_mem_nil, or_false] at he
    rcases he with he | he | he | he | he <;> subst he
    · simpa using s1
    · simpa using s2
    · simpa using s3
    · simpa using s4
    · rw [ms_createPost]; simpa using s4
  · rw [if_neg hg]
    by_cases hp : method = "POST".toList
    · rw [if_pos hp, ms_create_slash p hh]
      rfl
    · rw [if_neg hp]

/-! ## The claims -/

/-- C1: for every argument list that parses, the `addr` attribute of the start-up info
record and the address passed to `ListenAndServe` are both the parsed listen address,
which is the last value given to `-addr` when the flag is present and `:4000` when it is
absent; the info record comes first, the listen call second. -/
theorem C1_startup_address (args : List Str) (serveErr : Option Str) (cfg : config)
    (h : loadConfig args = Except.ok cfg) :
    cfg.addr = (addrFlagValues args).getLast?.getD ":4000".toList ∧
    (main args serveErr).events =
      [Event.log Level.info "starting server".toList [("addr".toList, cfg.addr)],
       Event.listenAndServe cfg.addr mux] ++
      (match serveErr with
       | none => []
       | some d => [Event.log Level.error d []]) := by
  refine ⟨(loadConfig_ok args cfg h).1, ?_⟩
  unfold main
  rw [h]
  cases serveErr <;> rfl

/-- C1 at the arguments `-addr :9999`. -/
theorem C1_startup_address_witness :
    loadConfig ["-addr".toList, ":9999".toList] =
        Except.ok { addr := ":9999".toList, staticDir := [] } ∧
      (main ["-addr".toList, ":9999".toList] none).events =
        [Event.log Level.info "starting server".toList [("addr".toList, ":9999".toList)],
         Event.listenAndServe ":9999".toList mux] :=
  ⟨rfl, (C1_startup_address ["-addr".toList, ":9999".toList] none
    { addr := ":9999".toList, staticDir := [] } rfl).2⟩

/-- C2, as stated, fails: `main` also ends the process with status 2 (arguments that do
not parse) and with status 0 (`-h`), both through `flag.Parse()`. -/
theorem C2_counterexample :
    (main ["-port".toList, "80".toList] (some "bind: address already in use".toList)).exit =
        some 2 ∧
      (main ["-h".toList] none).exit = some 0 := by
  constructor <;> rfl

/-- C2, amended: when `ListenAndServe` returns an error, `main` emits exactly one
error-severity record, with the error's text as message and no attributes, as its last
action, and exits with status 1. Every exit of the process is either that one, or the
exit of `flag.Parse()` on arguments that do not parse: status 0 for `-h`/`-help` and
status 2 for any other parse error. -/
theorem C2_exit_status (args : List Str) (serveErr : Option Str) :
    (∀ cfg d, loadConfig args = Except.ok cfg → serveErr = some d →
      (main args serveErr).events.filter Event.isError = [Event.log Level.error d []] ∧
      (main args serveErr).events.getLast? = some (Event.log Level.error d []) ∧
      (main args serveErr).exit = some 1) ∧
    (∀ code, (main args serveErr).exit = some code →
      (code = 1 ∧ ∃ cfg d, loadConfig args = Except.ok cfg ∧ serveErr = some d) ∨
      (∃ e, loadConfig args = Except.error e ∧
        ((e = FlagError.errHelp ∧ code = 0) ∨ (e ≠ FlagError.errHelp ∧ code = 2)))) := by
  constructor
  · intro cfg d h hs
    subst hs
    unfold main
    rw [h]
    simp [Event.isError]
  · intro code hcode
    unfold main at hcode
    cases h : loadConfig args with
    | error e =>
      rw [h] at hcode
      right
      refine ⟨e, rfl, ?_⟩
      simp only [Option.some.injEq] at hcode
      cases e <;> simp [FlagError.exitStatus] at hcode ⊢ <;> omega
    | ok cfg =>
      rw [h] at hcode
      cases serveErr with
      | none => simp at hcode
      | some d =>
        left
        simp only [Option.some.injEq] at hcode
        exact ⟨hcode.symm, cfg, d, rfl, rfl⟩

/-- C2 at a failed bind with the default arguments. -/
theorem C2_exit_status_witness :
    (main [] (some "bind: address already in use".toList)).events.filter Event.isError =
        [Event.log Level.error "bind: address already in use".toList []] ∧
      (main [] (some "bind: address already in use".toList)).events.getLast? =
        some (Event.log Level.error "bind: address already in use".toList []) ∧
      (main [] (some "bind: address already in use".toList)).exit = some 1 :=
  (C2_exit_status [] (some "bind: address already in use".toList)).1
    { addr := ":4000".toList, staticDir := [] } "bind: address already in use".toList rfl rfl

/-- C3, as stated, fails: the `GET` request for the target `/%2F` has the URL path `//`,
written `/%2F`, and is dispatched to `home`, though its path is not `/`. -/
theorem C3_counterexample :
    URL.setPath "/%2F".toList = some { Path := "//".toList, RawPath := "/%2F".toList } ∧
      mux.ServeHTTP
          { Method := "GET".toList, RequestURI := "/%2F".toList, Host := [],
            URL := { Path := "//".toList, RawPath := "/%2F".toList } } =
        Dispatch.handler Handler.home patHome [] ∧
      "/%2F".toList ≠ "/".toList ∧ "//".toList ≠ "/".toList := by
  decide

/-- C3, amended: a `GET` request (for a target other than `*`) is dispatched to `home`
exactly when the path that is routed, the escaped path of its URL, is `/` or is the
escaped slash `/%2F` (also written `/%2f`); when the URL carries no `RawPath` (its path
is written in the default encoding), that is exactly when `URL.Path` is `/`. No other
path reaches `home`: `/foo` and `/snippet` get the not-found reply. -/
theorem C3_home_exact (r : Request) (hm : r.Method = "GET".toList)
    (hu : r.RequestURI ≠ "*".toList) :
    ((∃ pat ms, mux.ServeHTTP r = Dispatch.handler Handler.home pat ms) ↔
      r.URL.EscapedPath = "/".toList ∨ r.URL.EscapedPath = "/%2F".toList ∨
        r.URL.EscapedPath = "/%2f".toList) ∧
    (r.URL.RawPath = [] →
      ((∃ pat ms, mux.ServeHTTP r = Dispatch.handler Handler.home pat ms) ↔
        r.URL.Path = "/".toList)) ∧
    mux.ServeHTTP (request "GET".toList r.Host "/foo".toList) = Dispatch.notFound ∧
    mux.ServeHTTP (request "GET".toList r.Host "/snippet".toList) = Dispatch.notFound := by
  have main : (∃ pat ms, mux.ServeHTTP r = Dispatch.handler Handler.home pat ms) ↔
      r.URL.EscapedPath = "/".toList ∨ r.URL.EscapedPath = "/%2F".toList ∨
        r.URL.EscapedPath = "/%2f".toList := by
    constructor
    · rintro ⟨pat, ms, hd⟩
      obtain ⟨_, hc, hf, _⟩ := ServeHTTP_handler _ _ _ _ hd
      have hmem := firstMatch_mem _ _ _ hf
      have he := (route_of_handler _ hmem.1).2.1 rfl
      have hms := (matches_segments _ _ _ hmem.2).2
      rw [he] at hms
      exact (ms_home_iff _ (head_of_clean _ hc)).1 hms
    · intro hp
      refine ⟨patHome, [], ?_⟩
      have hc : cleanPath r.URL.EscapedPath = r.URL.EscapedPath := by
        rcases hp with hp | hp | hp <;> (rw [hp]; decide)
      have hf : firstMatch routes r.Method r.URL.EscapedPath = some (patHome, Handler.home) := by
        rw [hm]
        rcases hp with hp | hp | hp <;> (rw [hp]; decide)
      rw [ServeHTTP_of_firstMatch r _ hu hc hf]
      rcases hp with hp | hp | hp <;> (rw [hp]; decide)
  refine ⟨main, fun hraw => ?_, ?_, ?_⟩
  · rw [main]
    have hE : r.URL.EscapedPath =
        if r.URL.Path = "*".toList then "*".toList else escape r.URL.Path := by
      unfold URL.EscapedPath
      rw [if_neg (by simp [hraw])]
    rw [hE]
    by_cases hstar : r.URL.Path = "*".toList
    · rw [if_pos hstar, hstar]
      decide
    · rw [if_neg hstar]
      exact escape_home r.URL.Path
  · have hE := request_EscapedPath "GET".toList r.Host "/foo".toList (by decide) (by decide)
    exact ServeHTTP_notFound (request "GET".toList r.Host "/foo".toList)
      (by show "/foo".toList ≠ "*".toList; decide)
      (by rw [hE]; decide) (by rw [hE]; decide) (by rw [hE]; decide)
  · have hE := request_EscapedPath "GET".toList r.Host "/snippet".toList (by decide)
      (by decide)
    exact ServeHTTP_notFound (request "GET".toList r.Host "/snippet".toList)
      (by show "/snippet".toList ≠ "*".toList; decide)
      (by rw [hE]; decide) (by rw [hE]; decide) (by rw [hE]; decide)

/-- C3 at the request `GET /`. -/
theorem C3_home_exact_witness :
    (request "GET".toList [] "/".toList).Method = "GET".toList ∧
      (request "GET".toList [] "/".toList).RequestURI ≠ "*".toList ∧
      ∃ pat ms, mux.ServeHTTP (request "GET".toList [] "/".toList) =
        Dispatch.handler Handler.home pat ms :=
  ⟨rfl, by decide,
   (C3_home_exact (request "GET".toList [] "/".toList) rfl (by decide)).1.2
     (Or.inl (by decide))⟩

/-- C4, as stated, fails. `..` is one non-empty segment without a slash, yet the `GET`
request for `/snippet/view/..` is not dispatched to `snippetView`: it is redirected to
the canonical path `/snippet`. The request for `/snippet/view/a%2Fb` is dispatched to
`snippetView`, but with the id `a/b`, not `a%2Fb`. The request for `/snippet/view/%2F`,
whose last segment is not empty and has no slash, gets the not-found reply. -/
theorem C4_counterexample :
    (mux.ServeHTTP (request "GET".toList [] "/snippet/view/..".toList) =
        Dispatch.redirect "/snippet".toList ∧
      "/snippet/view/..".toList = "/snippet/view/".toList ++ "..".toList ∧
      "..".toList ≠ [] ∧ '/' ∉ "..".toList) ∧
    (URL.setPath "/snippet/view/a%2Fb".toList =
        some { Path := "/snippet/view/a/b".toList, RawPath := "/snippet/view/a%2Fb".toList } ∧
      mux.ServeHTTP
          { Method := "GET".toList, RequestURI := "/snippet/view/a%2Fb".toList, Host := [],
            URL := { Path := "/snippet/view/a/b".toList,
                     RawPath := "/snippet/view/a%2Fb".toList } } =
        Dispatch.handler Handler.snippetView patView ["a/b".toList] ∧
      PathValue patView ["a/b".toList] "id".toList = "a/b".toList ∧
      "a/b".toList ≠ "a%2Fb".toList) ∧
    (URL.setPath "/snippet/view/%2F".toList =
        some { Path := "/snippet/view//".toList, RawPath := "/snippet/view/%2F".toList } ∧
      mux.ServeHTTP
          { Method := "GET".toList, RequestURI := "/snippet/view/%2F".toList, Host := [],
            URL := { Path := "/snippet/view//".toList,
                     RawPath := "/snippet/view/%2F".toList } } = Dispatch.notFound ∧
      "%2F".toList ≠ [] ∧ '/' ∉ "%2F".toList) := by
  decide

/-- C4, amended: a `GET` request (for a target other than `*`) is dispatched to
`snippetView` exactly when the path that is routed, the escaped path of its URL, has
exactly three segments, of which the first decodes to `snippet`, the second decodes to
`view`, and the third, `s`, is not empty, contains no slash, is neither `.` nor `..`
and does not decode to a slash (it is not `%2F`). The value of `id` is then `s` with its
percent-escapes decoded, which is `s` itself when `s` has no percent sign (`123` for
`/snippet/view/123`). `/snippet/view/` without an id gets the not-found reply. -/
theorem C4_view_route (r : Request) (hm : r.Method = "GET".toList)
    (hu : r.RequestURI ≠ "*".toList) :
    ((∃ pat ms, mux.ServeHTTP r = Dispatch.handler Handler.snippetView pat ms) ↔
      ∃ a b s, r.URL.EscapedPath = '/' :: a ++ '/' :: b ++ '/' :: s ∧
        '/' ∉ a ∧ pathUnescape a = "snippet".toList ∧
        '/' ∉ b ∧ pathUnescape b = "view".toList ∧
        s ≠ [] ∧ '/' ∉ s ∧ s ≠ ".".toList ∧ s ≠ "..".toList ∧
        pathUnescape s ≠ "/".toList) ∧
    (∀ a b s pat ms, r.URL.EscapedPath = '/' :: a ++ '/' :: b ++ '/' :: s →
      '/' ∉ a → '/' ∉ b → '/' ∉ s →
      mux.ServeHTTP r = Dispatch.handler Handler.snippetView pat ms →
      PathValue pat ms "id".toList = pathUnescape s ∧
        ('%' ∉ s → PathValue pat ms "id".toList = s)) ∧
    (∀ host, mux.ServeHTTP (request "GET".toList host "/snippet/view/123".toList) =
        Dispatch.handler Handler.snippetView patView ["123".toList] ∧
      PathValue patView ["123".toList] "id".toList = "123".toList) ∧
    (∀ host, mux.ServeHTTP (request "GET".toList host "/snippet/view/".toList) =
      Dispatch.notFound) := by
  have key : ∀ pat ms, mux.ServeHTTP r = Dispatch.handler Handler.snippetView pat ms →
      pat = patView ∧ cleanPath r.URL.EscapedPath = r.URL.EscapedPath ∧
        matchSegments patView.segments r.URL.EscapedPath = some ms := by
    intro pat ms hd
    obtain ⟨_, hc, hf, hms⟩ := ServeHTTP_handler _ _ _ _ hd
    have hmem := firstMatch_mem _ _ _ hf
    have he := (route_of_handler _ hmem.1).2.2.1 rfl
    have hpat : pat = patView := congrArg Prod.fst he
    subst hpat
    have hsome := (matches_segments _ _ _ hmem.2).2
    obtain ⟨m, hm'⟩ := Option.isSome_iff_exists.1 hsome
    have hm'' : matchSegments patView.segments r.URL.EscapedPath = some m := hm'
    refine ⟨rfl, hc, ?_⟩
    rw [hms]
    show matchSegments patView.segments r.URL.EscapedPath =
      some ((matchSegments patView.segments r.URL.EscapedPath).getD [])
    rw [hm'']
    rfl
  have hdots : ∀ a : Str, pathUnescape a = "snippet".toList ∨ pathUnescape a = "view".toList →
      a ≠ [] ∧ a ≠ ".".toList ∧ a ≠ "..".toList := by
    intro a ha
    refine ⟨?_, ?_, ?_⟩ <;> (intro e; subst e; revert ha; decide)
  refine ⟨⟨?_, ?_⟩, ?_, ?_, ?_⟩
  · rintro ⟨pat, ms, hd⟩
    obtain ⟨_, hc, hms⟩ := key pat ms hd
    obtain ⟨a, b, s, hp, ha, hb, hs, hua, hub, hs0, hus, _⟩ :=
      (ms_view_iff _ (head_of_clean _ hc) ms).1 hms
    obtain ⟨a0, a1, a2⟩ := hdots a (Or.inl hua)
    obtain ⟨b0, b1, b2⟩ := hdots b (Or.inr hub)
    rw [hp] at hc
    obtain ⟨h1, h2⟩ := (cleanPath_three a b s ha hb hs a0 a1 a2 b0 b1 b2 hs0).1 hc
    exact ⟨a, b, s, hp, ha, hua, hb, hub, hs0, hs, h1, h2, hus⟩
  · rintro ⟨a, b, s, hp, ha, hua, hb, hub, hs0, hs, h1, h2, hus⟩
    obtain ⟨a0, a1, a2⟩ := hdots a (Or.inl hua)
    obtain ⟨b0, b1, b2⟩ := hdots b (Or.inr hub)
    have hc : cleanPath r.URL.EscapedPath = r.URL.EscapedPath := by
      rw [hp]
      exact (cleanPath_three a b s ha hb hs a0 a1 a2 b0 b1 b2 hs0).2 ⟨h1, h2⟩
    have hmv : matchSegments patView.segments r.URL.EscapedPath = some [pathUnescape s] := by
      rw [hp, ms_view_three a b s ha hb hs, if_pos ⟨hua, hub, hs0, hus⟩]
    have hf1 : firstSegment r.URL.EscapedPath =
        ("snippet".toList, '/' :: b ++ '/' :: s) := by
      rw [hp, ← hua]
      have := firstSegment_append a ('/' :: b ++ '/' :: s) ha (Or.inr rfl) (by simp)
      simpa using this
    have hpn : r.URL.EscapedPath ≠ [] := by rw [hp]; simp
    have hnh : (matchSegments patHome.segments r.URL.EscapedPath).isSome = false := by
      rw [ms_home, if_neg hpn, hf1]
      rfl
    have hnst : (matchSegments patStatic.segments r.URL.EscapedPath).isSome = false := by
      rw [ms_static, if_neg hpn, hf1]
      rfl
    have hf : firstMatch routes r.Method r.URL.EscapedPath =
        some (patView, Handler.snippetView) := by
      rw [firstMatch_routes, if_pos (Or.inl hm), hnst, hnh, hmv]
      simp
    refine ⟨patView, [pathUnescape s], ?_⟩
    rw [ServeHTTP_of_firstMatch r _ hu hc hf]
    simp [Route.dispatch, Route.captures, hmv]
  · intro a b s pat ms hp ha hb hs hd
    obtain ⟨hpat, _, hms⟩ := key pat ms hd
    rw [hp, ms_view_three a b s ha hb hs] at hms
    have hid : PathValue pat ms "id".toList = pathUnescape s := by
      split_ifs at hms
      simp only [Option.some.injEq] at hms
      rw [hpat, ← hms]
      rfl
    exact ⟨hid, fun hpc => by rw [hid, pathUnescape_of_not_mem s hpc]⟩
  · intro host
    exact ⟨ServeHTTP_request "GET".toList host "/snippet/view/123".toList
      (patView, Handler.snippetView) (by decide) (by decide) (by decide) (by decide),
      by decide⟩
  · intro host
    have hE := request_EscapedPath "GET".toList host "/snippet/view/".toList (by decide)
      (by decide)
    exact ServeHTTP_notFound (request "GET".toList host "/snippet/view/".toList)
      (by show "/snippet/view/".toList ≠ "*".toList; decide)
      (by rw [hE]; decide) (by rw [hE]; decide) (by rw [hE]; decide)

/-- C4 at the path `/snippet/view/42`. -/
theorem C4_view_route_witness :
    (request "GET".toList [] "/snippet/view/42".toList).Method = "GET".toList ∧
      (request "GET".toList [] "/snippet/view/42".toList).RequestURI ≠ "*".toList ∧
      (∃ pat ms, mux.ServeHTTP (request "GET".toList [] "/snippet/view/42".toList) =
        Dispatch.handler Handler.snippetView pat ms) ∧
      mux.ServeHTTP (request "GET".toList [] "/snippet/view/".toList) = Dispatch.notFound :=
  ⟨rfl, by decide,
   (C4_view_route (request "GET".toList [] "/snippet/view/42".toList) rfl (by decide)).1.2
     ⟨"snippet".toList, "view".toList, "42".toList, by decide⟩,
   (C4_view_route (request "GET".toList [] "/snippet/view/42".toList) rfl
     (by decide)).2.2.2 []⟩

/-- C5, as stated, fails: a `HEAD` request for `/snippet/create`, a method other than
`GET` and `POST`, reaches `snippetCreate`. -/
theorem C5_counterexample :
    mux.ServeHTTP (request "HEAD".toList [] "/snippet/create".toList) =
        Dispatch.handler Handler.snippetCreate patCreate [] ∧
      "HEAD".toList ≠ "GET".toList ∧ "HEAD".toList ≠ "POST".toList := by
  decide

/-- C5, amended: for the path `/snippet/create`, a `POST` request is dispatched to
`snippetCreatePost`, a `GET` request and also a `HEAD` request to `snippetCreate`, and a
request with any other method reaches no handler and gets the 405 reply. -/
theorem C5_create_methods (method host : Str) :
    (method = "POST".toList →
      mux.ServeHTTP (request method host "/snippet/create".toList) =
        Dispatch.handler Handler.snippetCreatePost patCreatePost []) ∧
    (method = "GET".toList ∨ method = "HEAD".toList →
      mux.ServeHTTP (request method host "/snippet/create".toList) =
        Dispatch.handler Handler.snippetCreate patCreate []) ∧
    (method ≠ "POST".toList → method ≠ "GET".toList → method ≠ "HEAD".toList →
      mux.ServeHTTP (request method host "/snippet/create".toList) =
        Dispatch.methodNotAllowed) := by
  have hu : "/snippet/create".toList ≠ "*".toList := by decide
  have he : escape "/snippet/create".toList = "/snippet/create".toList := by decide
  have hc : cleanPath "/snippet/create".toList = "/snippet/create".toList := by decide
  refine ⟨?_, ?_, ?_⟩
  · intro hm
    subst hm
    exact ServeHTTP_request _ host _ (patCreatePost, Handler.snippetCreatePost) hu he hc
      (by decide)
  · intro hm
    rcases hm with hm | hm <;> subst hm <;>
      exact ServeHTTP_request _ host _ (patCreate, Handler.snippetCreate) hu he hc (by decide)
  · intro h1 h2 h3
    have hE := request_EscapedPath method host "/snippet/create".toList hu he
    apply ServeHTTP_methodNotAllowed (request method host "/snippet/create".toList) hu
    · rw [hE]; exact hc
    · rw [hE]
      show firstMatch routes method "/snippet/create".toList = none
      rw [firstMatch_routes, if_neg (by rintro (h | h); exact h2 h; exact h3 h), if_neg h1]
    · rw [hE]
      decide
    · rw [hE]
      show firstMatch routes method ("/snippet/create".toList ++ "/".toList) = none
      exact (noPathMatch_none _ (by decide)).2.2 method

/-- C5 at the methods `POST`, `GET`, `HEAD` and `DELETE`. -/
theorem C5_create_methods_witness :
    mux.ServeHTTP (request "POST".toList [] "/snippet/create".toList) =
        Dispatch.handler Handler.snippetCreatePost patCreatePost [] ∧
      mux.ServeHTTP (request "GET".toList [] "/snippet/create".toList) =
        Dispatch.handler Handler.snippetCreate patCreate [] ∧
      mux.ServeHTTP (request "HEAD".toList [] "/snippet/create".toList) =
        Dispatch.handler Handler.snippetCreate patCreate [] ∧
      mux.ServeHTTP (request "DELETE".toList [] "/snippet/create".toList) =
        Dispatch.methodNotAllowed :=
  ⟨(C5_create_methods "POST".toList []).1 rfl,
   (C5_create_methods "GET".toList []).2.1 (Or.inl rfl),
   (C5_create_methods "HEAD".toList []).2.1 (Or.inr rfl),
   (C5_create_methods "DELETE".toList []).2.2 (by decide) (by decide) (by decide)⟩

/-- C6, as stated, fails. `/static//x` is `/static` followed by a remainder that begins
with a slash, yet the `GET` request for it is not dispatched to the static handler: it
is redirected to the canonical path `/static/x`. The request for `/static/a%20b` is
dispatched to the static handler, but the file server receives `/a b`, not `/a%20b`.
The request for `/%73tatic/x`, whose URL path is `/static/x`, is dispatched to the
static handler, which answers not found without asking the file server. -/
theorem C6_counterexample :
    (mux.ServeHTTP (request "GET".toList [] "/static//x".toList) =
        Dispatch.redirect "/static/x".toList ∧
      "/static//x".toList = "/static".toList ++ "//x".toList ∧
      "//x".toList.head? = some '/') ∧
    (URL.setPath "/static/a%20b".toList =
        some { Path := "/static/a b".toList, RawPath := [] } ∧
      ({ Path := "/static/a b".toList, RawPath := [] } : URL).EscapedPath =
        "/static".toList ++ "/a%20b".toList ∧
      mux.ServeHTTP
          { Method := "GET".toList, RequestURI := "/static/a%20b".toList, Host := [],
            URL := { Path := "/static/a b".toList, RawPath := [] } } =
        Dispatch.handler (StripPrefix "/static".toList fileServer) patStatic [] ∧
      (StripPrefix "/static".toList fileServer).ServeHTTP
          { Path := "/static/a b".toList, RawPath := [] } =
        Served.files staticRoot "/a b".toList ∧
      "/a b".toList ≠ "/a%20b".toList) ∧
    (URL.setPath "/%73tatic/x".toList =
        some { Path := "/static/x".toList, RawPath := "/%73tatic/x".toList } ∧
      mux.ServeHTTP
          { Method := "GET".toList, RequestURI := "/%73tatic/x".toList, Host := [],
            URL := { Path := "/static/x".toList, RawPath := "/%73tatic/x".toList } } =
        Dispatch.handler (StripPrefix "/static".toList fileServer) patStatic [] ∧
      (StripPrefix "/static".toList fileServer).ServeHTTP
          { Path := "/static/x".toList, RawPath := "/%73tatic/x".toList } =
        Served.notFound) := by
  decide

/-- C6, amended. Every `GET` request (for a target other than `*`) whose routed path, the
escaped path of its URL, is in canonical form (`cleanPath` leaves it unchanged: no `.`
or `..` element, no repeated slash) and is `/static` followed by a remainder that begins
with a slash is dispatched to the static handler. The static handler passes a request
on to the file server exactly when `URL.Path` begins with `/static` and `URL.RawPath`
is empty or begins with `/static` too, and answers not found otherwise; the file server
receives `URL.Path`, the decoded path, without the leading `/static`. For a request
whose URL carries no `RawPath` and whose path is `/static` followed by `q`, that is
exactly `q`. No request reaches the file server unless its escaped path and its
`URL.Path` both begin with `/static/`. -/
theorem C6_static_files :
    (∀ (r : Request) (q : Str), r.Method = "GET".toList → r.RequestURI ≠ "*".toList →
      q.head? = some '/' → r.URL.EscapedPath = "/static".toList ++ q →
      cleanPath ("/static".toList ++ q) = "/static".toList ++ q →
      mux.ServeHTTP r =
        Dispatch.handler (StripPrefix "/static".toList fileServer) patStatic []) ∧
    (∀ u : URL, (StripPrefix "/static".toList fileServer).ServeHTTP u =
      if "/static".toList <+: u.Path ∧ (u.RawPath = [] ∨ "/static".toList <+: u.RawPath) then
        Served.files staticRoot (u.Path.drop 7)
      else Served.notFound) ∧
    (∀ host q : Str, q.head? = some '/' →
      cleanPath (request "GET".toList host ("/static".toList ++ q)).URL.EscapedPath =
        (request "GET".toList host ("/static".toList ++ q)).URL.EscapedPath →
      mux.ServeHTTP (request "GET".toList host ("/static".toList ++ q)) =
        Dispatch.handler (StripPrefix "/static".toList fileServer) patStatic [] ∧
      (StripPrefix "/static".toList fileServer).ServeHTTP
          (request "GET".toList host ("/static".toList ++ q)).URL =
        Served.files staticRoot q) ∧
    (∀ (r : Request) (h : Handler) (pat : pattern) (ms : List Str) (root q : Str),
      mux.ServeHTTP r = Dispatch.handler h pat ms →
      h.ServeHTTP r.URL = Served.files root q →
      "/static/".toList <+: r.URL.EscapedPath ∧ "/static/".toList <+: r.URL.Path ∧
        root = staticRoot ∧ q = r.URL.Path.drop 7) := by
  have hsp : StripPrefix "/static".toList fileServer = staticHandler := rfl
  have part1 : ∀ (r : Request) (q : Str), (r.Method = "GET".toList) →
      r.RequestURI ≠ "*".toList → q.head? = some '/' →
      r.URL.EscapedPath = "/static".toList ++ q →
      cleanPath ("/static".toList ++ q) = "/static".toList ++ q →
      mux.ServeHTTP r = Dispatch.handler staticHandler patStatic [] := by
    intro r q hm hu hq hE hc
    obtain ⟨c, q', hq'⟩ : ∃ c q', q = c :: q' := by
      rcases q with _ | ⟨c, q'⟩
      · simp at hq
      · exact ⟨c, q', rfl⟩
    have hc' : c = '/' := by rw [hq'] at hq; simpa using hq
    subst hc'
    subst hq'
    have hp : "/static".toList ++ '/' :: q' = "/static/".toList ++ q' := by simp
    have hf : firstMatch routes r.Method r.URL.EscapedPath =
        some (patStatic, staticHandler) := by
      rw [hE, hp, hm]; exact firstMatch_static _ _ (Or.inl rfl)
    rw [ServeHTTP_of_firstMatch r _ hu (by rw [hE]; exact hc) hf]
    have hms : matchSegments patStatic.segments r.URL.EscapedPath = some [] := by
      rw [hE, hp, ms_static]
      have : firstSegment ("/static/".toList ++ q') = ("static".toList, '/' :: q') :=
        firstSegment_append "static".toList ('/' :: q') (by decide) (Or.inr rfl) (by simp)
      rw [this]
      simp
    simp only [Route.dispatch, Route.captures, hms]
    rfl
  rw [hsp]
  refine ⟨part1, staticHandler_ServeHTTP, ?_, ?_⟩
  · intro host q hq hc
    have hne : "/static".toList ++ q ≠ "*".toList := by simp
    have hE : (request "GET".toList host ("/static".toList ++ q)).URL.EscapedPath =
        "/static".toList ++ escape q := by
      unfold request URL.EscapedPath
      simp only [ne_eq, not_true_eq_false, false_and, if_false, if_neg hne, escape_static]
    have hqe : (escape q).head? = some '/' := by
      rcases q with _ | ⟨c, q'⟩
      · simp at hq
      · have hc' : c = '/' := by simpa using hq
        subst hc'
        rfl
    refine ⟨part1 _ (escape q) rfl hne hqe hE (by rw [← hE]; exact hc), ?_⟩
    rw [staticHandler_ServeHTTP]
    simp [request]
  · intro r h pat ms root q hd hs
    obtain ⟨_, hc, hf, _⟩ := ServeHTTP_handler _ _ _ _ hd
    have hmem := firstMatch_mem _ _ _ hf
    have hst : (pat, h) = (patStatic, staticHandler) := by
      have he := hmem.1
      simp only [routes, List.mem_cons, List.mem_singleton, List.not_mem_nil, or_false] at he
      rcases he with he | he | he | he | he
      · exact he
      all_goals
        (have h2 : h = _ := congrArg Prod.snd he
         subst h2
         simp [Handler.ServeHTTP] at hs)
    have hms := (matches_segments _ _ _ hmem.2).2
    rw [hst] at hms
    obtain ⟨a, q0, hE, ha, hua⟩ := (ms_static_iff _ (head_of_clean _ hc)).1 hms
    have hh : h = staticHandler := congrArg Prod.snd hst
    rw [hh] at hs
    exact static_served r.URL root q a q0 hE ha hua hs

/-- C6 at the path `/static/css/main.css`. -/
theorem C6_static_files_witness :
    "/css/main.css".toList.head? = some '/' ∧
      mux.ServeHTTP (request "GET".toList [] ("/static".toList ++ "/css/main.css".toList)) =
        Dispatch.handler (StripPrefix "/static".toList fileServer) patStatic [] ∧
      (StripPrefix "/static".toList fileServer).ServeHTTP
          (request "GET".toList [] ("/static".toList ++ "/css/main.css".toList)).URL =
        Served.files staticRoot "/css/main.css".toList :=
  ⟨by decide, C6_static_files.2.2.1 [] "/css/main.css".toList (by decide) (by decide)⟩

/-- C7, as stated, fails: a `HEAD` request for `/` is dispatched to `home`, whose pattern
is registered with the method `GET`. -/
theorem C7_counterexample :
    mux.ServeHTTP (request "HEAD".toList [] "/".toList) =
        Dispatch.handler Handler.home patHome [] ∧
      patHome.method = "GET".toList ∧ "HEAD".toList ≠ "GET".toList := by
  decide

/-- C7, amended: every request that is dispatched to a registered handler has the method
registered with that handler's pattern, or the method `HEAD` where the pattern's method
is `GET`: a request served by `snippetCreatePost` is a `POST`, and a request served by
any of the other four handlers is a `GET` or a `HEAD`. -/
theorem C7_method_match (r : Request) (h : Handler) (pat : pattern) (ms : List Str)
    (hd : mux.ServeHTTP r = Dispatch.handler h pat ms) :
    (pat, h) ∈ routes ∧
    (r.Method = pat.method ∨ (pat.method = "GET".toList ∧ r.Method = "HEAD".toList)) ∧
    (h = Handler.snippetCreatePost → r.Method = "POST".toList) ∧
    (h ≠ Handler.snippetCreatePost →
      r.Method = "GET".toList ∨ r.Method = "HEAD".toList) := by
  obtain ⟨_, _, hf, _⟩ := ServeHTTP_handler _ _ _ _ hd
  have hmem := firstMatch_mem _ _ _ hf
  have hmm := (matches_segments _ _ _ hmem.2).1
  have he := hmem.1
  refine ⟨he, ?_⟩
  simp only [routes, List.mem_cons, List.mem_singleton, List.not_mem_nil, or_false] at he
  rcases he with he | he | he | he | he <;>
    (obtain ⟨h1, h2⟩ := Prod.mk.inj he
     subst h1; subst h2
     rcases methodMatches_cases _ _ hmm with h0 | h0 | h0
     · exact absurd h0 (by decide)
     · rw [← h0]; simp [patStatic, patHome, patView, patCreate, patCreatePost, staticHandler]
     · first
         | exact absurd h0.1 (by decide)
         | (rw [h0.2]; simp [patStatic, patHome, patView, patCreate, patCreatePost, staticHandler]))

/-- C7 at the request `POST /snippet/create`. -/
theorem C7_method_match_witness :
    ((patCreatePost, Handler.snippetCreatePost) ∈ routes ∧
      ((request "POST".toList [] "/snippet/create".toList).Method = patCreatePost.method ∨
        (patCreatePost.method = "GET".toList ∧
          (request "POST".toList [] "/snippet/create".toList).Method = "HEAD".toList)) ∧
      (Handler.snippetCreatePost = Handler.snippetCreatePost →
        (request "POST".toList [] "/snippet/create".toList).Method = "POST".toList) ∧
      (Handler.snippetCreatePost ≠ Handler.snippetCreatePost →
        (request "POST".toList [] "/snippet/create".toList).Method = "GET".toList ∨
        (request "POST".toList [] "/snippet/create".toList).Method = "HEAD".toList)) :=
  C7_method_match (request "POST".toList [] "/snippet/create".toList) Handler.snippetCreatePost
    patCreatePost [] (by decide)

/-- C8, as stated, fails: `DELETE /` and `GET /static` match none of the five entries,
yet the first gets the 405 reply and the second a redirect to `/static/`, not the 404. -/
theorem C8_counterexample :
    (∀ e ∈ routes, e.accepts "DELETE".toList "/".toList = false) ∧
      mux.ServeHTTP (request "DELETE".toList [] "/".toList) = Dispatch.methodNotAllowed ∧
      (∀ e ∈ routes, e.accepts "GET".toList "/static".toList = false) ∧
      mux.ServeHTTP (request "GET".toList [] "/static".toList) =
        Dispatch.redirect "/static/".toList := by
  decide

/-- C8, amended: a request whose method and routed path (the escaped path of its URL)
match none of the five entries, a `HEAD` request counting as a match of a `GET` entry,
reaches no registered handler. For a target other than `*` and a path in canonical
form, its reply is the not-found reply (404) when no pattern matches the path, or the
path with a slash appended, under any method, and the method-not-allowed reply (405)
when some pattern matches the path under another method. So `GET /snippet/create/` and
`GET /snippet/view/1/2` get the 404, `DELETE /` gets the 405, and `GET /static` is
redirected to `/static/`. -/
theorem C8_unmatched (r : Request)
    (hno : ∀ e ∈ routes, e.accepts r.Method r.URL.EscapedPath = false) :
    (∀ h pat ms, mux.ServeHTTP r ≠ Dispatch.handler h pat ms) ∧
    (r.RequestURI ≠ "*".toList → cleanPath r.URL.EscapedPath = r.URL.EscapedPath →
      noPathMatch r.URL.EscapedPath → noPathMatch (r.URL.EscapedPath ++ "/".toList) →
      mux.ServeHTTP r = Dispatch.notFound) ∧
    (r.RequestURI ≠ "*".toList → cleanPath r.URL.EscapedPath = r.URL.EscapedPath →
      ¬ noPathMatch r.URL.EscapedPath →
      mux.ServeHTTP r = Dispatch.methodNotAllowed) ∧
    mux.ServeHTTP (request "GET".toList r.Host "/snippet/create/".toList) = Dispatch.notFound ∧
    mux.ServeHTTP (request "GET".toList r.Host "/snippet/view/1/2".toList) =
      Dispatch.notFound ∧
    mux.ServeHTTP (request "DELETE".toList r.Host "/".toList) = Dispatch.methodNotAllowed ∧
    mux.ServeHTTP (request "GET".toList r.Host "/static".toList) =
      Dispatch.redirect "/static/".toList := by
  have hnh : ∀ h pat ms, mux.ServeHTTP r ≠ Dispatch.handler h pat ms := by
    intro h pat ms hd
    obtain ⟨_, _, hf, _⟩ := ServeHTTP_handler _ _ _ _ hd
    have hmem := firstMatch_mem _ _ _ hf
    rw [hno _ hmem.1] at hmem
    exact absurd hmem.2 (by decide)
  have hfm : firstMatch routes r.Method r.URL.EscapedPath = none := by
    cases hf : firstMatch routes r.Method r.URL.EscapedPath with
    | none => rfl
    | some e =>
      have hmem := firstMatch_mem _ _ _ hf
      rw [hno _ hmem.1] at hmem
      exact absurd hmem.2 (by decide)
  refine ⟨hnh, fun hu hc h1 h2 => ServeHTTP_notFound r hu hc h1 h2, ?_, ?_, ?_, ?_,
    ServeHTTP_static_redirect r.Host⟩
  · intro hu hc h1
    exact ServeHTTP_methodNotAllowed r hu hc hfm h1
      (firstMatch_slash_none _ _ (head_of_clean _ hc) hfm h1)
  · have hE := request_EscapedPath "GET".toList r.Host "/snippet/create/".toList (by decide)
      (by decide)
    exact ServeHTTP_notFound (request "GET".toList r.Host "/snippet/create/".toList)
      (by show "/snippet/create/".toList ≠ "*".toList; decide)
      (by rw [hE]; decide) (by rw [hE]; decide) (by rw [hE]; decide)
  · have hE := request_EscapedPath "GET".toList r.Host "/snippet/view/1/2".toList (by decide)
      (by decide)
    exact ServeHTTP_notFound (request "GET".toList r.Host "/snippet/view/1/2".toList)
      (by show "/snippet/view/1/2".toList ≠ "*".toList; decide)
      (by rw [hE]; decide) (by rw [hE]; decide) (by rw [hE]; decide)
  · have hE := request_EscapedPath "DELETE".toList r.Host "/".toList (by decide) (by decide)
    exact ServeHTTP_methodNotAllowed (request "DELETE".toList r.Host "/".toList)
      (by show "/".toList ≠ "*".toList; decide)
      (by rw [hE]; decide)
      (by rw [hE]; show firstMatch routes "DELETE".toList "/".toList = none; decide)
      (by rw [hE]; decide)
      (by rw [hE]
          show firstMatch routes "DELETE".toList ("/".toList ++ "/".toList) = none
          decide)

/-- C8 at the request `GET /foo`. -/
theorem C8_unmatched_witness :
    (∀ e ∈ routes,
        e.accepts (request "GET".toList [] "/foo".toList).Method
          (request "GET".toList [] "/foo".toList).URL.EscapedPath = false) ∧
      (∀ h pat ms, mux.ServeHTTP (request "GET".toList [] "/foo".toList) ≠
        Dispatch.handler h pat ms) ∧
      mux.ServeHTTP (request "GET".toList [] "/foo".toList) = Dispatch.notFound :=
  ⟨by decide,
   (C8_unmatched (request "GET".toList [] "/foo".toList) (by decide)).1,
   (C8_unmatched (request "GET".toList [] "/foo".toList) (by decide)).2.1
     (by decide) (by decide) (by decide) (by decide)⟩

/-- C9: at most one of the five registered route entries matches a request. Hence, for
every order in which the five entries are registered, first-match dispatch over the
table finds the same entry, the routing tree of `main` finds that entry, and the
multiplexer built in that order serves every request as the one of `main` does. -/
theorem C9_order_independent :
    (∀ method p : Str, ∀ e1 ∈ parseTable routeTable, ∀ e2 ∈ parseTable routeTable,
      e1.accepts method p = true → e2.accepts method p = true → e1 = e2) ∧
    (∀ t : List (Str × Handler), t.Perm routeTable →
      (∀ method p : Str,
        firstMatch (parseTable t) method p = firstMatch (parseTable routeTable) method p) ∧
      (∀ host method p : Str,
        mux.tree.«match» host method p =
          (firstMatch (parseTable t) method p).map (fun e => e.hit p)) ∧
      ∃ m, NewServeMux.register t = some m ∧ ∀ r, m.ServeHTTP r = mux.ServeHTTP r) := by
  rw [parseTable_routeTable]
  refine ⟨fun method p e1 h1 e2 h2 m1 m2 => routes_unique method p e1 e2 h1 h2 m1 m2, ?_⟩
  intro t ht
  have hperm : (parseTable t).Perm routes := by
    rw [← parseTable_routeTable]
    exact List.Perm.filterMap _ ht
  have hfm : ∀ method p : Str, firstMatch (parseTable t) method p = firstMatch routes method p :=
    fun method p => find?_perm_unique _ routes (parseTable t)
      (fun a ha b hb pa pb => routes_unique method p a b ha hb pa pb) hperm
  refine ⟨hfm, fun host method p => ?_, register_perm t ht⟩
  rw [hfm, mux_match]

/-- C9 at the table in reverse order. -/
theorem C9_order_independent_witness :
    routeTable.reverse.Perm routeTable ∧
      (∀ method p : Str, firstMatch (parseTable routeTable.reverse) method p =
        firstMatch (parseTable routeTable) method p) ∧
      ∃ m, NewServeMux.register routeTable.reverse = some m ∧
        ∀ r, m.ServeHTTP r = mux.ServeHTTP r :=
  ⟨List.reverse_perm routeTable,
   (C9_order_independent.2 routeTable.reverse (List.reverse_perm routeTable)).1,
   (C9_order_independent.2 routeTable.reverse (List.reverse_perm routeTable)).2.2⟩

/-- C10, as stated, fails: with no flags the configuration's static directory is the
empty string, not `./ui/static/`, and it is not the root the file server serves from. -/
theorem C10_counterexample :
    loadConfig [] = Except.ok { addr := ":4000".toList, staticDir := [] } ∧
      ({ addr := ":4000".toList, staticDir := [] } : config).staticDir ≠ "./ui/static/".toList ∧
      fileServer ≠ Handler.FileServer ({ addr := ":4000".toList, staticDir := [] } : config).staticDir := by
  refine ⟨rfl, by decide, by decide⟩

/-- C10, amended: for every argument list that parses, the configuration's static
directory field is left at the empty string (no flag sets it), and the file server
serves from the fixed root `./ui/static/`, whatever the configuration is. -/
theorem C10_static_dir (args : List Str) (cfg : config) (h : loadConfig args = Except.ok cfg) :
    cfg.staticDir = [] ∧ fileServer = Handler.FileServer "./ui/static/".toList ∧
      fileServer ≠ Handler.FileServer cfg.staticDir := by
  have hs := (loadConfig_ok args cfg h).2
  refine ⟨hs, rfl, ?_⟩
  rw [hs]
  decide

/-- C10 at the arguments `-addr=:80`. -/
theorem C10_static_dir_witness :
    loadConfig ["-addr=:80".toList] = Except.ok { addr := ":80".toList, staticDir := [] } ∧
      ({ addr := ":80".toList, staticDir := [] } : config).staticDir = [] ∧
      fileServer = Handler.FileServer "./ui/static/".toList ∧
      fileServer ≠
        Handler.FileServer ({ addr := ":80".toList, staticDir := [] } : config).staticDir :=
  ⟨rfl, C10_static_dir ["-addr=:80".toList] { addr := ":80".toList, staticDir := [] } rfl⟩

end Snippetbox
